import Mathlib

/-!
Verification development for the `apiDatabento` documentation scraper.

The Python sources (`DOCAPIscraper.py`, `batch_scraper.py`, `scrapApi.py`)
are shallowly embedded below: HTML documents become an inductive tree
(`Node`), BeautifulSoup traversals become structurally recursive functions
over that tree, and the `urllib.parse` routines the code calls are modelled
after the Python 3.11 standard-library implementation.
-/

namespace DocScrape

/-! ## Python string primitives -/

/-- Whitespace characters recognised by Python's `str.strip()` / `str.split()`
(ASCII subset; the scraper only manipulates ASCII whitespace). -/
def pyIsSpace (c : Char) : Bool :=
  c == ' ' || c == '\t' || c == '\n' || c == '\r' || c == '\x0b' || c == '\x0c'

/-- Python `str.strip()` with no arguments. -/
def pyStrip (s : String) : String :=
  String.mk (((s.data.dropWhile pyIsSpace).reverse.dropWhile pyIsSpace).reverse)

/-- Python `str.rstrip("/")`, as used in `batch_scraper._normalize_link`. -/
def pyRstripSlash (s : String) : String :=
  String.mk ((s.data.reverse.dropWhile (fun c => c == '/')).reverse)

/-- Helper for Python `str.split()` with no separator: split on whitespace
runs, discarding empty pieces.  The accumulator holds the current word,
reversed. -/
def splitWsAux : List Char → List Char → List (List Char)
  | [], acc => if acc.isEmpty then [] else [acc.reverse]
  | c :: rest, acc =>
    if pyIsSpace c then
      if acc.isEmpty then splitWsAux rest [] else acc.reverse :: splitWsAux rest []
    else splitWsAux rest (c :: acc)

/-- Python `str.split()` with no separator. -/
def pySplitWs (s : String) : List String :=
  (splitWsAux s.data []).map String.mk

/-- Model of `_clean_text` from `DOCAPIscraper.py`: `" ".join(s.split())`. -/
def clean_text (s : String) : String :=
  " ".intercalate (pySplitWs s)

/-- Predicate `startsWithL pre s` : does `s` begin with `pre`? -/
def startsWithL : List Char → List Char → Bool
  | [], _ => true
  | _ :: _, [] => false
  | p :: ps, c :: cs => p == c && startsWithL ps cs

/-- Python `str.startswith`. -/
def pyStartsWith (p s : String) : Bool := startsWithL p.data s.data

/-- Split a character list at the first occurrence of the character `c`;
`none` when `c` does not occur. -/
def splitFirstChar (c : Char) : List Char → Option (List Char × List Char)
  | [] => none
  | x :: xs =>
    if x == c then some ([], xs)
    else (splitFirstChar c xs).map (fun p => (x :: p.1, p.2))

/-- First occurrence of a non-empty substring `sep` in `s`: the part strictly
before it and the part strictly after it. -/
def findSub (sep : List Char) : List Char → Option (List Char × List Char)
  | [] => if startsWithL sep [] then some ([], []) else none
  | c :: rest =>
    if startsWithL sep (c :: rest) then some ([], (c :: rest).drop sep.length)
    else
      match findSub sep rest with
      | some (b, a) => some (c :: b, a)
      | none => none

/-- Does the non-empty substring `sep` occur in `s`? -/
def hasSub (sep : List Char) (s : List Char) : Bool := (findSub sep s).isSome

/-- Fuelled worker for Python `str.split(sep)` (non-empty separator). -/
def pySplitSepF (sep : List Char) : Nat → List Char → List (List Char)
  | 0, s => [s]
  | fuel + 1, s =>
    match findSub sep s with
    | none => [s]
    | some (b, a) => b :: pySplitSepF sep fuel a

/-- Python `str.split(sep)` for a non-empty separator: `s.length + 1` units of
fuel always suffice because each found occurrence strictly shrinks the
remainder. -/
def pySplitSep (sep : String) (s : String) : List String :=
  (pySplitSepF sep.data (s.data.length + 1) s.data).map String.mk

/-! ## `urllib.parse` model (Python 3.11) -/

/-- Characters allowed in a URL scheme (`urllib.parse.scheme_chars`). -/
def schemeChar (c : Char) : Bool :=
  c.isAlpha || c.isDigit || c == '+' || c == '-' || c == '.'

/-- The list `urllib.parse.uses_relative`. -/
def usesRelative : List String :=
  ["", "ftp", "http", "gopher", "nntp", "imap", "wais", "file", "https",
   "shttp", "mms", "prospero", "rtsp", "rtspu", "sftp", "svn", "svn+ssh",
   "ws", "wss"]

/-- The list `urllib.parse.uses_netloc`. -/
def usesNetloc : List String :=
  ["", "ftp", "http", "gopher", "nntp", "telnet", "imap", "wais", "file",
   "mms", "https", "shttp", "snews", "prospero", "rtsp", "rtspu", "rsync",
   "svn", "svn+ssh", "sftp", "nfs", "git", "git+ssh", "ws", "wss"]

/-- The list `urllib.parse.uses_params`. -/
def usesParams : List String :=
  ["", "ftp", "hdl", "prospero", "http", "imap", "https", "shttp", "rtsp",
   "rtspu", "sip", "sips", "mms", "sftp", "tel"]

/-- Bytes removed by `urlsplit` per the WHATWG spec (`\t`, `\r`, `\n`). -/
def removeCtlChars (s : List Char) : List Char :=
  s.filter (fun c => !(c == '\t' || c == '\r' || c == '\n'))

/-- Result of `urllib.parse.urlsplit`. -/
structure SplitUrl where
  scheme : String
  netloc : String
  path : String
  query : String
  fragment : String
deriving Repr, DecidableEq

/-- Modelled from the Python 3.11 standard library: `urllib.parse.urlsplit`
(the IPv6 bracket validation, which can only raise, is omitted). -/
def pyUrlsplit (ds : String) (u : String) : SplitUrl :=
  let url0 := removeCtlChars u.data
  let ds0 := removeCtlChars ds.data
  let schemeUrl : List Char × List Char :=
    match splitFirstChar ':' url0 with
    | none => (ds0, url0)
    | some (before, after) =>
      if before.length > 0 && (before.headD ' ').isAlpha && before.all schemeChar
      then (before.map Char.toLower, after)
      else (ds0, url0)
  let scheme := schemeUrl.1
  let url1 := schemeUrl.2
  let netlocUrl : List Char × List Char :=
    if startsWithL ['/', '/'] url1 then
      let rest := url1.drop 2
      (rest.takeWhile (fun c => !(c == '/' || c == '?' || c == '#')),
       rest.dropWhile (fun c => !(c == '/' || c == '?' || c == '#')))
    else ([], url1)
  let netloc := netlocUrl.1
  let url2 := netlocUrl.2
  let urlFrag : List Char × List Char :=
    match splitFirstChar '#' url2 with
    | none => (url2, [])
    | some (b, a) => (b, a)
  let url3 := urlFrag.1
  let fragment := urlFrag.2
  let urlQuery : List Char × List Char :=
    match splitFirstChar '?' url3 with
    | none => (url3, [])
    | some (b, a) => (b, a)
  ⟨String.mk scheme, String.mk netloc, String.mk urlQuery.1,
   String.mk urlQuery.2, String.mk fragment⟩

/-- Result of `urllib.parse.urlparse`. -/
structure ParseUrl where
  scheme : String
  netloc : String
  path : String
  params : String
  query : String
  fragment : String
deriving Repr, DecidableEq

/-- Model of `urllib.parse._splitparams`. -/
def splitparams (url : List Char) : List Char × List Char :=
  if url.contains '/' then
    let revu := url.reverse
    let lastSeg := (revu.takeWhile (fun c => c != '/')).reverse
    let front := (revu.dropWhile (fun c => c != '/')).reverse
    match splitFirstChar ';' lastSeg with
    | none => (url, [])
    | some (b, a) => (front ++ b, a)
  else
    match splitFirstChar ';' url with
    | none => (url, [])
    | some (b, a) => (b, a)

/-- Modelled from the Python 3.11 standard library: `urllib.parse.urlparse`. -/
def pyUrlparse (ds : String) (u : String) : ParseUrl :=
  let r := pyUrlsplit ds u
  if usesParams.contains r.scheme && r.path.data.contains ';' then
    let pp := splitparams r.path.data
    ⟨r.scheme, r.netloc, String.mk pp.1, String.mk pp.2, r.query, r.fragment⟩
  else
    ⟨r.scheme, r.netloc, r.path, "", r.query, r.fragment⟩

/-- Modelled from the Python 3.11 standard library: `urllib.parse.urlunsplit`. -/
def pyUrlunsplit (scheme netloc path query fragment : String) : String :=
  let url := path
  let url :=
    if netloc ≠ "" ∨ (scheme ≠ "" ∧ usesNetloc.contains scheme ∧ ¬ pyStartsWith "//" url = true) then
      let url := if url ≠ "" ∧ ¬ pyStartsWith "/" url = true then "/" ++ url else url
      "//" ++ netloc ++ url
    else url
  let url := if scheme ≠ "" then scheme ++ ":" ++ url else url
  let url := if query ≠ "" then url ++ "?" ++ query else url
  if fragment ≠ "" then url ++ "#" ++ fragment else url

/-- Modelled from the Python 3.11 standard library: `urllib.parse.urlunparse`. -/
def pyUrlunparse (scheme netloc path params query fragment : String) : String :=
  let path := if params ≠ "" then path ++ ";" ++ params else path
  pyUrlunsplit scheme netloc path query fragment

/-- The step `segments[1:-1] = filter(None, segments[1:-1])` from `urljoin`: drop empty
segments, keeping the first and last elements untouched. -/
def filterMiddle (l : List String) : List String :=
  match l with
  | [] => []
  | [a] => [a]
  | a :: rest =>
    match rest.reverse with
    | [] => [a]
    | last :: midRev => a :: ((midRev.reverse.filter (fun s => s ≠ "")) ++ [last])

/-- Modelled from the Python 3.11 standard library: `urllib.parse.urljoin`. -/
def pyUrljoin (base url : String) : String :=
  if base = "" then url
  else if url = "" then base
  else
    let b := pyUrlparse "" base
    let r := pyUrlparse b.scheme url
    if r.scheme ≠ b.scheme ∨ ¬ usesRelative.contains r.scheme = true then url
    else if usesNetloc.contains r.scheme ∧ r.netloc ≠ "" then
      pyUrlunparse r.scheme r.netloc r.path r.params r.query r.fragment
    else
      let netloc := if usesNetloc.contains r.scheme then b.netloc else r.netloc
      if r.path = "" ∧ r.params = "" then
        pyUrlunparse r.scheme netloc b.path b.params
          (if r.query = "" then b.query else r.query) r.fragment
      else
        let baseParts := pySplitSep "/" b.path
        let baseParts :=
          if baseParts.getLast? = some "" then baseParts else baseParts.dropLast
        let urlParts := pySplitSep "/" r.path
        let segments :=
          if pyStartsWith "/" r.path then urlParts
          else filterMiddle (baseParts ++ urlParts)
        let resolved := segments.foldl (fun acc seg =>
          if seg = ".." then acc.dropLast
          else if seg = "." then acc
          else acc ++ [seg]) []
        let resolved :=
          if segments.getLast? = some "." ∨ segments.getLast? = some ".." then
            resolved ++ [""]
          else resolved
        let joined := "/".intercalate resolved
        pyUrlunparse r.scheme netloc (if joined = "" then "/" else joined)
          r.params r.query r.fragment

/-- Model of `urlparse(u)._replace(fragment="").geturl()` from
`DOCAPIscraper._absolute_links`: drop the fragment component. -/
def stripFragment (u : String) : String :=
  let p := pyUrlparse "" u
  pyUrlunparse p.scheme p.netloc p.path p.params p.query ""

/-! ## HTML tree model

A parsed document is a tree of element tags (with a BeautifulSoup-style
multi-valued `class` list plus the remaining attributes) and text nodes.
The document root plays the role of the `BeautifulSoup` object itself
(tag name `[document]`); searches only ever inspect its descendants. -/

inductive Node where
  | text (s : String)
  | elem (tag : String) (classes : List String) (attrs : List (String × String)) (children : List Node)
deriving Repr

mutual
/-- All nodes of the subtree rooted at `n`, in document (pre-)order,
the root included. -/
def allNodes : Node → List Node
  | .text s => [.text s]
  | .elem t c a kids => .elem t c a kids :: allNodesList kids
def allNodesList : List Node → List Node
  | [] => []
  | x :: r => allNodes x ++ allNodesList r
end

mutual
/-- BeautifulSoup `Tag.__eq__`: structural equality (same name, attributes
and contents). -/
def nodeBEq : Node → Node → Bool
  | .text s, .text t => s == t
  | .elem t1 c1 a1 k1, .elem t2 c2 a2 k2 =>
    t1 == t2 && c1 == c2 && a1 == a2 && nodesBEq k1 k2
  | _, _ => false
def nodesBEq : List Node → List Node → Bool
  | [], [] => true
  | x :: xs, y :: ys => nodeBEq x y && nodesBEq xs ys
  | _, _ => false
end

/-- Children of a node (`Tag.contents`). -/
def kidsOf : Node → List Node
  | .text _ => []
  | .elem _ _ _ k => k

/-- Strict descendants in document order (`Tag.descendants`). -/
def strictDesc (n : Node) : List Node := allNodesList (kidsOf n)

/-- The `class` attribute as a list (`tag.get("class", []) or []`). -/
def classesOf : Node → List String
  | .text _ => []
  | .elem _ c _ _ => c

/-- Attribute lookup (`tag.get(k)`) for non-`class` attributes. -/
def getAttr (k : String) : Node → Option String
  | .text _ => none
  | .elem _ _ a _ => (a.find? (fun p => p.1 == k)).map (fun p => p.2)

/-- Is `n` an element with the given tag name? -/
def isTagName (t : String) (n : Node) : Bool :=
  match n with
  | .elem t' _ _ _ => t' == t
  | .text _ => false

/-- Python truthiness of a BeautifulSoup `Tag`: a tag with no contents has
`len(tag) == 0` and is falsy. -/
def isEmptyTag : Node → Bool
  | .elem _ _ _ kids => kids.isEmpty
  | .text _ => false

/-- The string contents of a text node. -/
def textOf : Node → Option String
  | .text s => some s
  | .elem _ _ _ _ => none

/-- BeautifulSoup `get_text(separator, strip)`: all descendant strings in
document order; with `strip` each piece is stripped and empty pieces are
dropped; pieces are joined with `sep`. -/
def get_text (sep : String) (strip : Bool) (n : Node) : String :=
  let pieces := (allNodes n).filterMap textOf
  if strip then sep.intercalate ((pieces.map pyStrip).filter (fun s => s ≠ ""))
  else sep.intercalate pieces

/-! ## Locations (zipper view of a node inside a document)

`_closest_section_heading` walks previous siblings and parents, so a code
block is represented by its node together with the chain of crumbs up to
the document root: each crumb records the parent element's data, the
earlier siblings (nearest first) and the later siblings (document order). -/

structure Crumb where
  tag : String
  classes : List String
  attrs : List (String × String)
  left : List Node
  right : List Node
deriving Repr

structure Loc where
  node : Node
  crumbs : List Crumb
deriving Repr

/-- Rebuild the parent element of a focused node from its crumb. -/
def plug (n : Node) (c : Crumb) : Node :=
  .elem c.tag c.classes c.attrs (c.left.reverse ++ n :: c.right)

mutual
/-- Locations of all `pre code` CSS matches (a `code` element with some `pre`
ancestor), in document order — `soup.select("pre code")`. -/
def selectPreCodeAux : Node → List Crumb → List Loc
  | .text _, _ => []
  | .elem t c a kids, cs =>
    (if t == "code" && cs.any (fun cr => cr.tag == "pre") then
      [⟨.elem t c a kids, cs⟩]
    else []) ++ selectPreCodeKids t c a cs [] kids
def selectPreCodeKids : String → List String → List (String × String) →
    List Crumb → List Node → List Node → List Loc
  | _, _, _, _, _, [] => []
  | t, c, a, cs, leftAcc, x :: rest =>
    selectPreCodeAux x (⟨t, c, a, leftAcc, rest⟩ :: cs)
      ++ selectPreCodeKids t c a cs (x :: leftAcc) rest
end

/-- Model of `soup.select("pre code")` on a whole document: the root stands for the
`BeautifulSoup` object and is not itself a candidate. -/
def selectPreCode : Node → List Loc
  | .text _ => []
  | .elem t c a kids => selectPreCodeKids t c a [] [] kids

/-! ## `_closest_section_heading` -/

/-- Outcome of walking the previous siblings at one nesting level. -/
inductive ScanRes where
  | found (h : Node) (between : List Node)
  | stopped
  | exhausted
deriving Repr

/-- One level of the backward sibling walk of `_closest_section_heading`.
`find_previous_sibling()` yields only element siblings; a non-empty `h2`/`h3`
is returned; an element with no contents is falsy, so the `while curr` loop
exits and the whole search aborts (`stopped`); any other element is skipped.
The accumulator collects the siblings walked over, in document order — these
are exactly the siblings strictly between the heading (when found) and the
node the walk started from. -/
def scanLeft : List Node → List Node → ScanRes
  | [], _ => .exhausted
  | x :: rest, acc =>
    match x with
    | .text s => scanLeft rest (.text s :: acc)
    | .elem t c a kids =>
      if (t == "h2" || t == "h3") && !kids.isEmpty then .found (.elem t c a kids) acc
      else if kids.isEmpty then .stopped
      else scanLeft rest (.elem t c a kids :: acc)

/-- The ascent loop of `_closest_section_heading`: scan one level; on
exhaustion move to the parent's previous siblings; an abort at any level
(falsy sibling) ends the whole search. -/
def searchLevels : List Node → List Crumb → Option (Node × List Node)
  | left, [] =>
    match scanLeft left [] with
    | .found h b => some (h, b)
    | _ => none
  | left, c :: cs =>
    match scanLeft left [] with
    | .found h b => some (h, b)
    | .stopped => none
    | .exhausted => searchLevels c.left cs

/-- Model of `_closest_section_heading` from `DOCAPIscraper.py`, returning the found
heading together with the siblings strictly between it and the level of the
walk.  The entry `while curr` test fails outright when the starting block is
a contents-less (falsy) tag. -/
def closest_section_heading (l : Loc) : Option (Node × List Node) :=
  if isEmptyTag l.node then none
  else
    match l.crumbs with
    | [] => none
    | c :: cs => searchLevels c.left cs

/-- The `pre` wrapper selection of `_extract_examples`:
`pre = code.parent if code and isinstance(code.parent, Tag) and
code.parent.name == "pre" else None; block = pre or code`.  An empty `code`
tag is falsy, so its wrapper is not taken. -/
def blockOf (l : Loc) : Loc :=
  match l.node with
  | .elem _ _ _ [] => l
  | _ =>
    match l.crumbs with
    | c :: cs => if c.tag == "pre" then ⟨plug l.node c, cs⟩ else l
    | [] => l

/-! ## `_collect_description_between` -/

/-- Model of `end_code_block in sib.descendants` (BeautifulSoup `in` compares with
structural `==`). -/
def containsStrict (block : Node) (sib : Node) : Bool :=
  (strictDesc sib).any (fun d => nodeBEq d block)

/-- Is the element a `p`, `ul` or `ol`? -/
def isPUlOl (n : Node) : Bool :=
  match n with
  | .elem t _ _ _ => t == "p" || t == "ul" || t == "ol"
  | .text _ => false

/-- Model of `sib.find_all(["p", "ul", "ol"], recursive=True)`. -/
def findAllPUlOl (sib : Node) : List Node :=
  (strictDesc sib).filter isPUlOl

/-- Model of `sub.find("code")`: the first `code` descendant of `sub` in
document order, if any. -/
def findCode (sub : Node) : Option Node :=
  (strictDesc sub).find? (isTagName "code")

/-- Model of the test `if sub.find("code"):` — Python truthiness of the
`find` result: true exactly when a first `code` descendant exists and has
contents. A found but contents-less `code` tag is falsy (`Tag.__len__` is
its number of contents), so it does not stop the wrapper descent. -/
def findCodeTruthy (sub : Node) : Bool :=
  match findCode sub with
  | some c => !isEmptyTag c
  | none => false

/-- The inner wrapper loop of `_collect_description_between`: texts of the
`p`/`ul`/`ol` descendants of a wrapper, stopping at the first one whose
first `code` descendant is a non-empty tag (the truthiness test of
`if sub.find("code"): break`). -/
def takeUntilCode : List Node → List String
  | [] => []
  | sub :: rest =>
    if findCodeTruthy sub then []
    else clean_text (get_text " " true sub) :: takeUntilCode rest

/-- The heading branch of `_collect_description_between`: walk the siblings
after the heading; break at the first sibling that is (or structurally
contains) the code block; collect `p`/`ul`/`ol` texts and descend into
`div`/`section`/`article` wrappers. -/
def collectSibs (block : Node) : List Node → List String
  | [] => []
  | sib :: rest =>
    match sib with
    | .text _ => collectSibs block rest
    | .elem t c a kids =>
      let sibN := Node.elem t c a kids
      if containsStrict block sibN then []
      else
        (if t == "p" || t == "ul" || t == "ol" then
          [clean_text (get_text " " true sibN)]
        else []) ++
        (if t == "div" || t == "section" || t == "article" then
          takeUntilCode (findAllPUlOl sibN)
        else []) ++
        collectSibs block rest

/-- The elements before a focused node in reverse document order
(`find_all_previous()`): for each level, the earlier siblings (nearest
first, each subtree reversed) and then the parent element. -/
def prevElems : Node → List Crumb → List Node
  | _, [] => []
  | n, c :: cs =>
    let parent := plug n c
    (c.left.flatMap (fun sib => (allNodes sib).reverse)) ++ parent :: prevElems parent cs

/-- The no-heading branch of `_collect_description_between`: walk backward,
collect `p`/`ul`/`ol` texts, stop at an `h2`/`h3` or at a `main`/`article`
container. -/
def collectPrev : List Node → List String
  | [] => []
  | .text _ :: rest => collectPrev rest
  | (.elem t c a kids) :: rest =>
    let n := Node.elem t c a kids
    let here :=
      if t == "p" || t == "ul" || t == "ol" then [clean_text (get_text " " true n)]
      else []
    if t == "h2" || t == "h3" || t == "main" || t == "article" then here
    else here ++ collectPrev rest

/-- The comprehension
`[t for i, t in enumerate(texts) if t and (i == 0 or t != texts[i - 1])]`:
keep a block iff it is non-empty and differs from the block immediately
before it in the original list. -/
def keepNonDupAux : String → List String → List String
  | _, [] => []
  | prev, t :: rest =>
    (if t ≠ "" ∧ t ≠ prev then [t] else []) ++ keepNonDupAux t rest

def keepNonDup : List String → List String
  | [] => []
  | t :: rest => (if t ≠ "" then [t] else []) ++ keepNonDupAux t rest

/-- Model of `"\n\n".join(filtered).strip()`. -/
def dedupJoin (texts : List String) : String :=
  pyStrip ("\n\n".intercalate (keepNonDup texts))

/-- Model of `_collect_description_between` from `DOCAPIscraper.py`.  The first
argument is the result of `_closest_section_heading` (heading plus the
siblings strictly between it and the walk level); the second is the code
block's location. -/
def collect_description_between (headingRes : Option (Node × List Node)) (block : Loc) : String :=
  let texts :=
    match headingRes with
    | some (_, between) => collectSibs block.node between
    | none => (collectPrev (prevElems block.node block.crumbs)).reverse
  dedupJoin texts

/-! ## `_language_from_code`, `_extract_examples`, `_page_title` -/

/-- Model of `_language_from_code` from `DOCAPIscraper.py`: for the first class with
the `language-` marker the emitted value is `c.split("language-")[1]`. -/
def language_from_code (classes : List String) : String :=
  match classes.find? (fun c => pyStartsWith "language-" c) with
  | some c => (pySplitSep "language-" c).getD 1 ""
  | none => "text"

structure CodeExample where
  title : String
  description : String
  language : String
  code : String
deriving Repr, DecidableEq

/-- The `page_title` local of `_extract_examples`: the first `h1`'s
`get_text(" ", strip=True)`, or `""` when the document has no `h1`. -/
def pageH1Text (doc : Node) : String :=
  match (strictDesc doc).find? (isTagName "h1") with
  | some h => get_text " " true h
  | none => ""

/-- The title computation of `_extract_examples`:
`clean(heading.get_text(...)) if heading is not None else (page_title or "Example")`. -/
def exampleTitle (pageT : String) (headingRes : Option (Node × List Node)) : String :=
  match headingRes with
  | some (h, _) => clean_text (get_text " " true h)
  | none => if pageT = "" then "Example" else pageT

/-- The `CodeExample` built by `_extract_examples` for one `pre code`
match (before the empty-code filter). -/
def exampleFor (doc : Node) (l : Loc) : CodeExample :=
  let block := blockOf l
  let headingRes := closest_section_heading block
  { title := exampleTitle (pageH1Text doc) headingRes
    description := collect_description_between headingRes block
    language := language_from_code (classesOf l.node)
    code := get_text "" false l.node }

/-- Model of `_extract_examples` from `DOCAPIscraper.py`. -/
def extract_examples (doc : Node) : List CodeExample :=
  (selectPreCode doc).filterMap (fun l =>
    let ex := exampleFor doc l
    if pyStrip ex.code = "" then none else some ex)

/-- The `<title>` fallback inside `_page_title`. -/
def titleFallback (doc : Node) : String :=
  match (strictDesc doc).find? (isTagName "title") with
  | some t => if !isEmptyTag t then clean_text (get_text " " true t) else ""
  | none => ""

/-- Model of `_page_title` from `DOCAPIscraper.py`: the first `h1` when truthy
(it has contents), else the first `<title>` when truthy, else `""`. -/
def page_title (doc : Node) : String :=
  match (strictDesc doc).find? (isTagName "h1") with
  | some h => if !isEmptyTag h then clean_text (get_text " " true h) else titleFallback doc
  | none => titleFallback doc

/-! ## `_absolute_links` -/

/-- The `href` values of `soup.select("a[href]")`, in document order. -/
def anchorHrefs (doc : Node) : List String :=
  (strictDesc doc).filterMap (fun n =>
    if isTagName "a" n then getAttr "href" n else none)

/-- The skip rule of `_absolute_links`: empty, fragment-only, `mailto:` and
`tel:` hrefs are excluded. -/
def skipHref (h : String) : Bool :=
  h == "" || pyStartsWith "#" h || pyStartsWith "mailto:" h || pyStartsWith "tel:" h

/-- The anchor loop of `_absolute_links`, with the `seen` set carried as a
list. -/
def absLinksGo (base : String) : List String → List String → List String
  | [], _ => []
  | h :: rest, seen =>
    if skipHref h then
      absLinksGo base rest seen
    else
      let u := stripFragment (pyUrljoin base h)
      if seen.contains u then absLinksGo base rest seen
      else u :: absLinksGo base rest (u :: seen)

/-- Model of `_absolute_links` from `DOCAPIscraper.py`. -/
def absolute_links (doc : Node) (base : String) : List String :=
  absLinksGo base (anchorHrefs doc) []

/-! ## `SPASidebarExtractor` (`scrapApi.py`) -/

structure SidebarLink where
  title : String
  href : String
deriving Repr, DecidableEq

/-- Model of `SPASidebarExtractor._sidebar_container`: the first `div` whose class
list contains `os-padding`. -/
def sidebar_container (doc : Node) : Option Node :=
  (strictDesc doc).find? (fun n =>
    match n with
    | .elem t cls _ _ => t == "div" && cls.contains "os-padding"
    | .text _ => false)

/-- The anchor loop of `extract_links`, with the `seen` set carried as a
list of `(href, title)` pairs. -/
def sidebarGo : List Node → List (String × String) → List SidebarLink
  | [], _ => []
  | a :: rest, seen =>
    let href := pyStrip ((getAttr "href" a).getD "")
    let title := get_text "" true a
    if href = "" then sidebarGo rest seen
    else if seen.contains (href, title) then sidebarGo rest seen
    else ⟨title, href⟩ :: sidebarGo rest ((href, title) :: seen)

/-- Model of `SPASidebarExtractor.extract_links` from `scrapApi.py`. -/
def extract_links (doc : Node) : List SidebarLink :=
  match sidebar_container doc with
  | none => []
  | some c =>
    sidebarGo ((strictDesc c).filter (fun n =>
      isTagName "a" n && (getAttr "href" n).isSome)) []

/-! ## `batch_scraper.py` -/

/-- A parsed JSON value (`json.loads` output).  JSON numbers are modelled as
integers; object keys are assumed distinct. -/
inductive JVal where
  | null
  | bool (b : Bool)
  | num (n : Int)
  | str (s : String)
  | arr (xs : List JVal)
  | obj (fields : List (String × JVal))
deriving Repr

mutual
/-- Python `repr` of a JSON value (string-escaping subtleties omitted; only
used for `str(raw)` on container values). -/
def pyRepr : JVal → String
  | .null => "None"
  | .bool true => "True"
  | .bool false => "False"
  | .num n => toString n
  | .str s => "'" ++ s ++ "'"
  | .arr xs => "[" ++ ", ".intercalate (pyReprList xs) ++ "]"
  | .obj f => "\x7b" ++ ", ".intercalate (pyReprFields f) ++ "\x7d"
def pyReprList : List JVal → List String
  | [] => []
  | x :: r => pyRepr x :: pyReprList r
def pyReprFields : List (String × JVal) → List String
  | [] => []
  | (k, v) :: r => ("'" ++ k ++ "': " ++ pyRepr v) :: pyReprFields r
end

/-- Python `str` of a JSON value. -/
def pyStr : JVal → String
  | .str s => s
  | v => pyRepr v

/-- Raw JSON-object field lookup (`d[k]` presence). -/
def jLookup (fields : List (String × JVal)) (k : String) : Option JVal :=
  (fields.find? (fun p => p.1 == k)).map (fun p => p.2)

/-- Model of `d.get(k)` with JSON `null` collapsed to Python `None`. -/
def pyGet (fields : List (String × JVal)) (k : String) : Option JVal :=
  match jLookup fields k with
  | some .null => none
  | x => x

/-- Python truthiness of a JSON value. -/
def jTruthy : JVal → Bool
  | .null => false
  | .bool b => b
  | .num n => n != 0
  | .str s => s != ""
  | .arr xs => !xs.isEmpty
  | .obj f => !f.isEmpty

/-- Model of `_normalize_link` from `batch_scraper.py`. -/
def normalize_link (raw : JVal) (base : Option String) : Option String :=
  let baseT : Option String :=
    match base with
    | some b => if b ≠ "" then some b else none
    | none => none
  let hrefOpt : Option JVal :=
    match raw with
    | .obj f =>
      (match pyGet f "href" with
       | some v => if jTruthy v then some v else pyGet f "url"
       | none => pyGet f "url")
    | _ => some raw
  match hrefOpt with
  | none => none
  | some hv =>
    let cleaned := pyStrip (pyStr hv)
    if cleaned = "" then none
    else
      let parsed := pyUrlparse "" cleaned
      if parsed.scheme ≠ "" then some cleaned
      else if pyStartsWith "//" cleaned then some ("https:" ++ cleaned)
      else
        match baseT with
        | some b =>
          if pyStartsWith "/" cleaned then some (pyUrljoin b cleaned)
          else if parsed.netloc = "" then some (pyUrljoin (pyRstripSlash b) cleaned)
          else none
        | none => none

/-- The `[link for link in normalized if link]` filter: keep the non-`None`,
non-empty results. -/
def cleanLinks (ls : List JVal) (base : Option String) : List String :=
  (ls.map (fun l => normalize_link l base)).filterMap (fun o =>
    match o with
    | some s => if s ≠ "" then some s else none
    | none => none)

/-- Model of `_load_links` from `batch_scraper.py`, applied to the already-parsed
JSON payload. -/
def load_links (payload : JVal) (base : Option String) : Except String (List String) :=
  let links : Except String (List JVal) :=
    match payload with
    | .arr xs => .ok xs
    | .obj f =>
      (match jLookup f "links" with
       | some (.arr xs) => .ok xs
       | some _ => .error "El JSON debe contener una lista o una clave 'links' con la lista de URLs"
       | none => .ok [])
    | _ => .ok []
  match links with
  | .error e => .error e
  | .ok ls =>
    let cleaned := cleanLinks ls base
    if cleaned.isEmpty then
      .error "No se encontraron enlaces navegables en el JSON de entrada. Usa --base-url si tus enlaces son relativos."
    else .ok cleaned

/-- Model of `scrape_links_to_memory` from `batch_scraper.py`, with the Playwright
renderer abstracted as a pure function from URL to scraped page payload. -/
def scrape_links_to_memory {α : Type} (render : String → α) (links : List JVal)
    (base : Option String) : Except String (List α) :=
  let usable := cleanLinks links base
  if usable.isEmpty then
    .error "No se encontraron enlaces navegables en memoria. Define base_url cuando tus enlaces son relativos."
  else .ok (usable.map render)

/-- Model of `scrape_links_to_json` from `batch_scraper.py`: validate and normalize
the input payload first, then scrape each page.  The renderer is only ever
invoked through `scrape_links_to_memory` after `_load_links` succeeds. -/
def scrape_links_to_json {α : Type} (render : String → α) (payload : JVal)
    (base : Option String) : Except String (List α) :=
  match load_links payload base with
  | .error e => .error e
  | .ok ls => scrape_links_to_memory render (ls.map JVal.str) base

/-! ## Concrete document helpers (used by witnesses and counterexamples) -/

/-- A document root: the `BeautifulSoup` object with the parsed top-level
nodes as children. -/
def mkDoc (kids : List Node) : Node := .elem "[document]" [] [] kids

/-- Plain element with no classes/attributes. -/
def pE (t : String) (kids : List Node) : Node := .elem t [] [] kids

/-- Text node. -/
def tx (s : String) : Node := .text s

/-! ## Specification-side definitions

The following definitions restate, in the claims' own terms, what the spec
asserts about the code.  They are compared against the embedded source
functions in the claim theorems. -/

/-- Is `n` an `h2` or `h3` element (of any contents)? -/
def isH23 (n : Node) : Bool :=
  isTagName "h2" n || isTagName "h3" n

/-- Is `n` a non-empty (truthy) `h2` or `h3` element — the only siblings the
source's walk actually returns? -/
def isH23ne (n : Node) : Bool :=
  isH23 n && !isEmptyTag n

/-- All earlier siblings visited by the claimed walk, in walk order: the
current level's earlier siblings (nearest first), then each ancestor
level's. -/
def flattenLefts (cs : List Crumb) : List Node :=
  cs.flatMap (fun c => c.left)

/-- The title fallback chain exactly as claim C1 states it: the found
heading's whitespace-normalized text; otherwise the text of the document's
first `h1`; otherwise the literal `"Example"`.  The claimed heading search
returns the first `h2`/`h3` of the backward walk, with every other node
skipped and never acting as a boundary. -/
def specTitleClaimed (doc : Node) (l : Loc) : String :=
  match (flattenLefts (blockOf l).crumbs).find? isH23 with
  | some h => clean_text (get_text " " true h)
  | none =>
    match (strictDesc doc).find? (isTagName "h1") with
    | some h => get_text " " true h
    | none => "Example"

/-- One level of the amended heading walk: the first sibling that is either
a non-empty `h2`/`h3` (returned) or a contents-less element (aborts). -/
def specScanFind (left : List Node) : Option Node :=
  left.find? (fun n => isH23ne n || isEmptyTag n)

/-- The amended multi-level walk: scan each level's earlier siblings; a
non-empty `h2`/`h3` is the result, a contents-less element aborts the whole
search, and an exhausted level continues at the parent. -/
def specLevels : List Node → List Crumb → Option Node
  | left, [] =>
    (match specScanFind left with
     | some n => if isH23ne n then some n else none
     | none => none)
  | left, c :: cs =>
    (match specScanFind left with
     | some n => if isH23ne n then some n else none
     | none => specLevels c.left cs)

/-- The amended heading search for a block location (a contents-less block
yields no heading at all). -/
def specSearch (l : Loc) : Option Node :=
  if isEmptyTag l.node then none
  else
    match l.crumbs with
    | [] => none
    | c :: cs => specLevels c.left cs

/-- The amended title: the heading found by the amended walk, normalized;
otherwise the first `h1`'s text when that text is non-empty; otherwise
`"Example"`. -/
def specTitleAmended (doc : Node) (l : Loc) : String :=
  match specSearch (blockOf l) with
  | some h => clean_text (get_text " " true h)
  | none =>
    match (strictDesc doc).find? (isTagName "h1") with
    | some h =>
      if get_text " " true h ≠ "" then get_text " " true h else "Example"
    | none => "Example"

/-- Collapse runs of identical adjacent blocks to their first element. -/
def collapseRunsAux : String → List String → List String
  | _, [] => []
  | prev, t :: rest => (if t = prev then [] else [t]) ++ collapseRunsAux t rest

def collapseRuns : List String → List String
  | [] => []
  | t :: rest => t :: collapseRunsAux t rest

/-- The claimed assembly of description blocks: adjacent identical blocks
collapsed to one occurrence, empty blocks dropped, the rest joined with a
blank line. -/
def specJoin (texts : List String) : String :=
  pyStrip ("\n\n".intercalate ((collapseRuns texts).filter (fun t => t ≠ "")))

/-- The texts a single between-sibling contributes per the claim's words:
its own normalized text when it is a `p`/`ul`/`ol`; for a
`div`/`section`/`article` wrapper, the texts of its `p`/`ul`/`ol`
descendants up to the first one "containing a `code` element" (any `code`
descendant at all — the claim's reading, not the source's truthiness
test). -/
def specSibTextsClaimed (sib : Node) : List String :=
  match sib with
  | .text _ => []
  | .elem t _ _ _ =>
    (if t == "p" || t == "ul" || t == "ol" then
      [clean_text (get_text " " true sib)]
    else []) ++
    (if t == "div" || t == "section" || t == "article" then
      ((findAllPUlOl sib).takeWhile
          (fun s => !((strictDesc s).any (isTagName "code")))).map
        (fun s => clean_text (get_text " " true s))
    else [])

/-- The texts a single between-sibling actually contributes: its own
normalized text when it is a `p`/`ul`/`ol`; for a `div`/`section`/`article`
wrapper, the texts of its `p`/`ul`/`ol` descendants up to the first one
whose first `code` descendant is a non-empty tag (`if sub.find("code"):`
is a truthiness test, so a found but contents-less `code` does not stop
the descent). -/
def specSibTexts (sib : Node) : List String :=
  match sib with
  | .text _ => []
  | .elem t _ _ _ =>
    (if t == "p" || t == "ul" || t == "ol" then
      [clean_text (get_text " " true sib)]
    else []) ++
    (if t == "div" || t == "section" || t == "article" then
      ((findAllPUlOl sib).takeWhile (fun s => !findCodeTruthy s)).map
        (fun s => clean_text (get_text " " true s))
    else [])

/-- The description claim C2 states, given the heading-search outcome: with
a heading, all between-siblings contribute; without one, the backward walk
gathers `p`/`ul`/`ol` texts until an `h2`/`h3` or `main`/`article` is hit
and is then reversed. -/
def specDescriptionClaimed (headingRes : Option (Node × List Node)) (block : Loc) : String :=
  let texts :=
    match headingRes with
    | some (_, between) => between.flatMap specSibTextsClaimed
    | none =>
      (((prevElems block.node block.crumbs).takeWhile (fun n =>
          !(isTagName "h2" n || isTagName "h3" n || isTagName "main" n ||
            isTagName "article" n))).filterMap (fun n =>
        if isPUlOl n then some (clean_text (get_text " " true n)) else none)).reverse
  specJoin texts

/-- The amended description: as claimed, except that the walk over the
between-siblings stops at the first sibling that structurally contains a
copy of the code block, and the wrapper descent stops only at a
`p`/`ul`/`ol` whose first `code` descendant is a non-empty tag (a present
but contents-less first `code` is falsy in `if sub.find("code")` and does
not stop it). -/
def specDescriptionAmended (headingRes : Option (Node × List Node)) (block : Loc) : String :=
  let texts :=
    match headingRes with
    | some (_, between) =>
      (between.takeWhile (fun sib => !containsStrict block.node sib)).flatMap specSibTexts
    | none =>
      (((prevElems block.node block.crumbs).takeWhile (fun n =>
          !(isTagName "h2" n || isTagName "h3" n || isTagName "main" n ||
            isTagName "article" n))).filterMap (fun n =>
        if isPUlOl n then some (clean_text (get_text " " true n)) else none)).reverse
  specJoin texts

/-- The per-block emission test of `_extract_examples`: the verbatim code
text is non-whitespace. -/
def codeKept (l : Loc) : Bool :=
  pyStrip (get_text "" false l.node) != ""

/-- The language claim C4 states: everything after the `language-` marker of
the first class carrying it. -/
def specLanguageClaimed (classes : List String) : String :=
  match classes.find? (fun c => pyStartsWith "language-" c) with
  | some c => String.mk (c.data.drop 9)
  | none => "text"

/-- Generic first-occurrence de-duplication, keeping the order of first
appearances; the accumulator holds the values already seen. -/
def dedupKeepFirstAux {α : Type} [BEq α] : List α → List α → List α
  | [], _ => []
  | x :: r, seen =>
    if seen.contains x then dedupKeepFirstAux r seen
    else x :: dedupKeepFirstAux r (x :: seen)

def dedupKeepFirst {α : Type} [BEq α] (l : List α) : List α :=
  dedupKeepFirstAux l []

/-- The claimed page-wide link pipeline: visit hrefs in document order,
drop skipped ones, resolve against the base, strip the fragment, then
de-duplicate keeping first-seen order. -/
def specPageLinks (doc : Node) (base : String) : List String :=
  dedupKeepFirst ((anchorHrefs doc).filterMap (fun h =>
    if skipHref h then none else some (stripFragment (pyUrljoin base h))))

/-- The sidebar result claim C7 states: anchors of the container with a
non-empty raw href, in document order, de-duplicated by the
(href, visible text) pair, hrefs returned exactly as found. -/
def specSidebarClaimed (doc : Node) : List SidebarLink :=
  match sidebar_container doc with
  | none => []
  | some c =>
    (dedupKeepFirst ((strictDesc c).filterMap (fun n =>
      if isTagName "a" n then
        match getAttr "href" n with
        | some h => if h ≠ "" then some (h, get_text "" true n) else none
        | none => none
      else none))).map (fun p => ⟨p.2, p.1⟩)

/-- The amended sidebar result: as claimed, except hrefs are
whitespace-trimmed and anchors are kept when the trimmed href is
non-empty. -/
def specSidebarAmended (doc : Node) : List SidebarLink :=
  match sidebar_container doc with
  | none => []
  | some c =>
    (dedupKeepFirst ((strictDesc c).filterMap (fun n =>
      if isTagName "a" n && (getAttr "href" n).isSome then
        (if pyStrip ((getAttr "href" n).getD "") ≠ "" then
          some (pyStrip ((getAttr "href" n).getD ""), get_text "" true n)
        else none)
      else none))).map (fun p => ⟨p.2, p.1⟩)

/-- The list of link entries a batch payload yields per claim C8: a JSON
list itself; an object's `links` field when it is a list; `none` when the
object's `links` field exists but is not a list.  (Other payloads yield no
entries.) -/
def payloadLinksList : JVal → Option (List JVal)
  | .arr xs => some xs
  | .obj f =>
    (match jLookup f "links" with
     | some (.arr xs) => some xs
     | some _ => none
     | none => some [])
  | _ => some []

/-- Fuelled version of the `_closest_section_heading` while-loop, one unit
of fuel per loop state: walking a sibling, or ascending one level.  `none`
means the fuel ran out; `some r` is the loop's answer. -/
def searchFuel : Nat → List Node → List Crumb → Option (Option Node)
  | 0, _, _ => none
  | fuel + 1, left, cs =>
    match left with
    | [] =>
      (match cs with
       | [] => some none
       | c :: cs' => searchFuel fuel c.left cs')
    | x :: rest =>
      match x with
      | .text _ => searchFuel fuel rest cs
      | .elem t c a kids =>
        if (t == "h2" || t == "h3") && !kids.isEmpty then
          some (some (.elem t c a kids))
        else if kids.isEmpty then some none
        else searchFuel fuel rest cs

/-- Fuel sufficient for the walk from a given state: one unit per remaining
sibling at the current level, plus, per ancestor level, one unit per sibling
and one for the ascent, plus one unit to report exhaustion at the root. -/
def crumbsWeight (cs : List Crumb) : Nat :=
  (cs.map (fun c => c.left.length + 1)).foldr (· + ·) 0

/-- The title tag fallback claim C10 (amended) states: the normalized text
of the document's first `<title>` element, the empty string when there is
none. -/
def specTitleTagText (doc : Node) : String :=
  match (strictDesc doc).find? (isTagName "title") with
  | some t => clean_text (get_text " " true t)
  | none => ""

/-- The loop-relevant head of a scan result: `some (some h)` when a heading
was found, `some none` when the walk aborted, `none` when the level was
exhausted. -/
def scanHeadOf : ScanRes → Option (Option Node)
  | .found h _ => some (some h)
  | .stopped => some none
  | .exhausted => none

/-- Heading-only version of `scanLeft` (the accumulated between-siblings do
not influence which heading is found). -/
def scanLeftHd : List Node → Option (Option Node)
  | [] => none
  | x :: rest =>
    match x with
    | .text _ => scanLeftHd rest
    | .elem t c a kids =>
      if (t == "h2" || t == "h3") && !kids.isEmpty then
        some (some (.elem t c a kids))
      else if kids.isEmpty then some none
      else scanLeftHd rest

/-- Heading-only version of `searchLevels`. -/
def searchLevelsHd : List Node → List Crumb → Option Node
  | left, [] =>
    (match scanLeftHd left with
     | some (some h) => some h
     | _ => none)
  | left, c :: cs =>
    (match scanLeftHd left with
     | some (some h) => some h
     | some none => none
     | none => searchLevelsHd c.left cs)

/-! ## Concrete documents for counterexamples and witnesses -/

/-- C1 counterexample document: a contents-less `hr` sits between the `h2`
and the code block. -/
def cdocC1 : Node :=
  mkDoc [pE "h2" [tx "A"], pE "hr" [], pE "pre" [pE "code" [tx "x"]]]

/-- C2 counterexample document: a wrapper holding a structural duplicate of
the code block precedes the prose paragraph. -/
def cdocC2 : Node :=
  mkDoc [pE "h2" [tx "T"], pE "div" [pE "pre" [pE "code" [tx "x"]]],
    pE "p" [tx "d"], pE "pre" [pE "code" [tx "x"]]]

/-- C5 counterexample document: a single parent-relative link. -/
def cdocC5 : Node := mkDoc [Node.elem "a" [] [("href", "../b")] []]

/-- C6 counterexample document: a single protocol-relative link. -/
def cdocC6 : Node := mkDoc [Node.elem "a" [] [("href", "//y.com/p")] []]

/-- C7 counterexample document: a sidebar anchor whose href carries
surrounding whitespace. -/
def cdocC7 : Node :=
  mkDoc [Node.elem "div" ["os-padding"] []
    [Node.elem "a" [] [("href", " docs/guide ")] [tx "G"]]]

/-- C10 counterexample document: no `h1`, and a `<title>` element that is
present but contents-less. -/
def cdocC10 : Node := mkDoc [pE "title" [], pE "pre" [pE "code" [tx "x"]]]

/-- C10 witness document: no `h1`, a `<title>` with un-normalized text, and
a code block with no preceding heading. -/
def wdocC10 : Node :=
  mkDoc [pE "title" [tx " T  x "], pE "pre" [pE "code" [tx "c"]]]

/-- The location of the code block of `wdocC10`. -/
def wlocC10 : Loc :=
  ⟨pE "code" [tx "c"],
   [⟨"pre", [], [], [], []⟩,
    ⟨"[document]", [], [], [pE "title" [tx " T  x "]], []⟩]⟩

end DocScrape


example : DocScrape.pyUrljoin "https://x.com/docs/a" "../b" = "https://x.com/b" := by decide
example : DocScrape.pyUrljoin "https://x.com/docs/a" "https://y.com/p#frag" = "https://y.com/p#frag" := by decide
example : DocScrape.stripFragment "https://y.com/p#frag" = "https://y.com/p" := by decide
example : DocScrape.pyUrljoin "http://x.com/a" "//y.com/p" = "http://y.com/p" := by decide
example : DocScrape.pyUrljoin "https://x.com/a" "//y.com/p" = "https://y.com/p" := by decide
example : DocScrape.clean_text "  a   b \n c " = "a b c" := by decide
example : DocScrape.pyStrip "  ab " = "ab" := by decide
example : DocScrape.pySplitSep "language-" "language-python" = ["", "python"] := by decide
example : DocScrape.pySplitSep "language-" "language-xlanguage-y" = ["", "x", "y"] := by decide

namespace DocScrape

/-! ## Helper lemmas -/

/-- Unfolding of the emission loop of `_extract_examples`. -/
theorem filterMap_kept (doc : Node) : ∀ ls : List Loc,
    (ls.filterMap (fun l =>
      if pyStrip (get_text "" false l.node) = "" then none
      else some (exampleFor doc l))) =
    (ls.filter codeKept).map (exampleFor doc) := by
  intro ls
  induction ls with
  | nil => rfl
  | cons l r ih =>
    simp only [List.filterMap_cons, List.filter_cons]
    by_cases h : pyStrip (get_text "" false l.node) = ""
    · rw [if_pos h]
      have hk : codeKept l = false := by
        simp [codeKept, h]
      rw [hk]
      simpa using ih
    · rw [if_neg h]
      have hk : codeKept l = true := by
        simp [codeKept, h]
      rw [hk]
      simpa using ih

/-- Lemma: `_extract_examples` is the emission filter followed by the per-block
constructor: one `CodeExample` per kept code block, in document order. -/
theorem extract_examples_eq (doc : Node) :
    extract_examples doc =
      ((selectPreCode doc).filter codeKept).map (exampleFor doc) := by
  have h1 : extract_examples doc =
      (selectPreCode doc).filterMap (fun l =>
        if pyStrip (get_text "" false l.node) = "" then none
        else some (exampleFor doc l)) := rfl
  rw [h1, filterMap_kept]

/-- The heading found by a level scan does not depend on the between-sibling
accumulator. -/
theorem scanLeft_hd (left : List Node) :
    ∀ acc, scanHeadOf (scanLeft left acc) = scanLeftHd left := by
  induction left with
  | nil => intro acc; rfl
  | cons x rest ih =>
    intro acc
    match x with
    | .text s =>
      show scanHeadOf (scanLeft rest (Node.text s :: acc)) = scanLeftHd rest
      exact ih _
    | .elem t c a kids =>
      show scanHeadOf
          (if (t == "h2" || t == "h3") && !kids.isEmpty then
            ScanRes.found (Node.elem t c a kids) acc
          else if kids.isEmpty then ScanRes.stopped
          else scanLeft rest (Node.elem t c a kids :: acc)) =
        (if (t == "h2" || t == "h3") && !kids.isEmpty then
          some (some (Node.elem t c a kids))
        else if kids.isEmpty then some none
        else scanLeftHd rest)
      cases hc1 : (t == "h2" || t == "h3") && !kids.isEmpty with
      | true => rfl
      | false =>
        cases hc2 : kids.isEmpty with
        | true => rfl
        | false =>
          simp only [Bool.false_eq_true, if_false]
          exact ih _

/-- The multi-level search agrees with its heading-only version. -/
theorem searchLevels_hd : ∀ (cs : List Crumb) (left : List Node),
    (searchLevels left cs).map Prod.fst = searchLevelsHd left cs := by
  intro cs
  induction cs with
  | nil =>
    intro left
    have h := scanLeft_hd left []
    show (match scanLeft left [] with
          | .found hh b => some (hh, b)
          | _ => none).map Prod.fst =
      (match scanLeftHd left with
       | some (some hh) => some hh
       | _ => none)
    rw [← h]
    cases scanLeft left [] <;> rfl
  | cons c cs ih =>
    intro left
    have h := scanLeft_hd left []
    show (match scanLeft left [] with
          | .found hh b => some (hh, b)
          | .stopped => none
          | .exhausted => searchLevels c.left cs).map Prod.fst =
      (match scanLeftHd left with
       | some (some hh) => some hh
       | some none => none
       | none => searchLevelsHd c.left cs)
    rw [← h]
    cases scanLeft left [] with
    | found hh b => rfl
    | stopped => rfl
    | exhausted => exact ih c.left

/-- Scans that agree on their heading give the same multi-level search. -/
theorem searchLevelsHd_congr {l₁ l₂ : List Node}
    (h : scanLeftHd l₁ = scanLeftHd l₂) :
    ∀ cs : List Crumb, searchLevelsHd l₁ cs = searchLevelsHd l₂ cs := by
  intro cs
  cases cs with
  | nil =>
    show (match scanLeftHd l₁ with
          | some (some hh) => some hh
          | _ => none) =
      (match scanLeftHd l₂ with
       | some (some hh) => some hh
       | _ => none)
    rw [h]
  | cons c cs =>
    show (match scanLeftHd l₁ with
          | some (some hh) => some hh
          | some none => none
          | none => searchLevelsHd c.left cs) =
      (match scanLeftHd l₂ with
       | some (some hh) => some hh
       | some none => none
       | none => searchLevelsHd c.left cs)
    rw [h]

/-- The fuelled loop needs one more unit than the level's sibling count plus
the weight of the ancestor levels, and then computes the heading-only
search. -/
theorem searchFuel_eq : ∀ (cs : List Crumb) (left : List Node),
    searchFuel (left.length + crumbsWeight cs + 1) left cs =
      some (searchLevelsHd left cs) := by
  intro cs
  induction cs with
  | nil =>
    intro left
    induction left with
    | nil => rfl
    | cons x rest ih =>
      match x with
      | .text s =>
        show searchFuel (rest.length + crumbsWeight [] + 1) rest [] =
          some (searchLevelsHd (Node.text s :: rest) [])
        rw [searchLevelsHd_congr
          (show scanLeftHd (Node.text s :: rest) = scanLeftHd rest from rfl) []]
        exact ih
      | .elem t c a kids =>
        show (if (t == "h2" || t == "h3") && !kids.isEmpty then
                some (some (Node.elem t c a kids))
              else if kids.isEmpty then some none
              else searchFuel (rest.length + crumbsWeight [] + 1) rest []) =
          some (match (if (t == "h2" || t == "h3") && !kids.isEmpty then
                        some (some (Node.elem t c a kids))
                      else if kids.isEmpty then some none
                      else scanLeftHd rest) with
                | some (some hh) => some hh
                | _ => none)
        cases hc1 : (t == "h2" || t == "h3") && !kids.isEmpty with
        | true => rfl
        | false =>
          cases hc2 : kids.isEmpty with
          | true => rfl
          | false =>
            simp only [Bool.false_eq_true, if_false]
            exact ih
  | cons c0 cs ih =>
    intro left
    induction left with
    | nil =>
      have e : (0 : Nat) + crumbsWeight (c0 :: cs) =
          c0.left.length + crumbsWeight cs + 1 := by
        simp only [crumbsWeight, List.map_cons, List.foldr_cons]
        omega
      show searchFuel (0 + crumbsWeight (c0 :: cs)) c0.left cs =
        some (searchLevelsHd [] (c0 :: cs))
      rw [e]
      exact ih c0.left
    | cons x rest ihl =>
      have e : rest.length + 1 + crumbsWeight (c0 :: cs) =
          rest.length + crumbsWeight (c0 :: cs) + 1 := by omega
      match x with
      | .text s =>
        show searchFuel (rest.length + 1 + crumbsWeight (c0 :: cs)) rest (c0 :: cs) =
          some (searchLevelsHd (Node.text s :: rest) (c0 :: cs))
        rw [e, searchLevelsHd_congr
          (show scanLeftHd (Node.text s :: rest) = scanLeftHd rest from rfl) (c0 :: cs)]
        exact ihl
      | .elem t c a kids =>
        show (if (t == "h2" || t == "h3") && !kids.isEmpty then
                some (some (Node.elem t c a kids))
              else if kids.isEmpty then some none
              else searchFuel (rest.length + 1 + crumbsWeight (c0 :: cs)) rest (c0 :: cs)) =
          some (match (if (t == "h2" || t == "h3") && !kids.isEmpty then
                        some (some (Node.elem t c a kids))
                      else if kids.isEmpty then some none
                      else scanLeftHd rest) with
                | some (some hh) => some hh
                | some none => none
                | none => searchLevelsHd c0.left cs) 
        cases hc1 : (t == "h2" || t == "h3") && !kids.isEmpty with
        | true => rfl
        | false =>
          cases hc2 : kids.isEmpty with
          | true => rfl
          | false =>
            simp only [Bool.false_eq_true, if_false]
            rw [e]
            exact ihl

/-! ## Claim theorems -/

/-- Claim C9 (termination/resources): the backward sibling walk with parent
ascent of `_closest_section_heading` terminates on every finite tree: run as
a step-by-step fuelled loop, a budget of one unit per sibling at each level
(plus one per ascent and a final step) always makes the loop report the
definite answer the structurally recursive search computes — the loop never
diverges and never errors.  A missing heading degrades to the documented
title fallback rather than an error: with no heading found the emitted
title is the page `h1` text or the literal `"Example"`. -/
theorem C9_extractor_total :
    (∀ (cs : List Crumb) (left : List Node),
      searchFuel (left.length + crumbsWeight cs + 1) left cs =
        some ((searchLevels left cs).map Prod.fst)) ∧
    (∀ (doc : Node) (l : Loc), closest_section_heading (blockOf l) = none →
      (exampleFor doc l).title =
        (if pageH1Text doc = "" then "Example" else pageH1Text doc)) := by
  constructor
  · intro cs left
    rw [searchLevels_hd, searchFuel_eq]
  · intro doc l h
    show exampleTitle (pageH1Text doc) (closest_section_heading (blockOf l)) = _
    rw [h]
    rfl

/-- Witness for C9 at a concrete loop state and a concrete heading-less
code block. -/
theorem C9_witness :
    searchFuel 3 [pE "p" [tx "d"], pE "h2" [tx "A"]] [] =
      some ((searchLevels [pE "p" [tx "d"], pE "h2" [tx "A"]] []).map Prod.fst) ∧
    (exampleFor (mkDoc [pE "pre" [pE "code" [tx "x"]]])
        ⟨pE "code" [tx "x"], []⟩).title = "Example" := by
  constructor
  · exact C9_extractor_total.1 [] [pE "p" [tx "d"], pE "h2" [tx "A"]]
  · exact (C9_extractor_total.2 (mkDoc [pE "pre" [pE "code" [tx "x"]]])
      ⟨pE "code" [tx "x"], []⟩ rfl).trans (by decide)

/-- Claim C3 (functional correctness): `_extract_examples` emits exactly one
`CodeExample` per `pre code` match whose verbatim text is non-whitespace, in
document order of the code blocks, and every emitted example's `code` field
is non-empty (indeed non-whitespace); whitespace-only blocks are silently
skipped by the same filter. -/
theorem C3_emission (doc : Node) :
    extract_examples doc =
      ((selectPreCode doc).filter codeKept).map (exampleFor doc) ∧
    ∀ e, e ∈ extract_examples doc → (e.code ≠ "" ∧ pyStrip e.code ≠ "") := by
  refine ⟨extract_examples_eq doc, ?_⟩
  intro e he
  rw [extract_examples_eq doc] at he
  obtain ⟨l, hl, rfl⟩ := List.mem_map.mp he
  have hk : codeKept l = true := (List.mem_filter.mp hl).2
  have hcode : (exampleFor doc l).code = get_text "" false l.node := rfl
  have hne : pyStrip (get_text "" false l.node) ≠ "" := by
    simpa [codeKept] using hk
  refine ⟨?_, by simpa [hcode] using hne⟩
  intro hz
  rw [hcode] at hz
  rw [hz] at hne
  exact hne rfl

/-- Witness for C3 at a concrete document and emitted example. -/
theorem C3_witness :
    (CodeExample.mk "A" "d1" "text" "x").code ≠ "" ∧
    pyStrip (CodeExample.mk "A" "d1" "text" "x").code ≠ "" :=
  (C3_emission (mkDoc [pE "h2" [tx "A"], pE "p" [tx "d1"],
    pE "pre" [pE "code" [tx "x"]]])).2 _ (by decide)

/-- Claim C8 (error handling): a batch payload that does not yield a list of
links (neither a JSON list nor an object whose `links` field is a list), or
whose entries normalize to zero usable links, makes `scrape_links_to_json`
fail with an error — uniformly in the renderer, so the failure is raised
before any page is rendered or scraped and the batch is never started. -/
theorem C8_invalid_input (payload : JVal) (base : Option String)
    (h : payloadLinksList payload = none ∨
      ∀ ls, payloadLinksList payload = some ls → cleanLinks ls base = []) :
    ∀ {α : Type} (render : String → α), ∃ e,
      scrape_links_to_json render payload base = Except.error e := by
  intro α render
  match payload with
  | .arr xs =>
    rcases h with h | h
    · exact absurd h (by simp [payloadLinksList])
    · have hc := h xs rfl
      refine ⟨"No se encontraron enlaces navegables en el JSON de entrada. Usa --base-url si tus enlaces son relativos.", ?_⟩
      show (match (if (cleanLinks xs base).isEmpty then
              (Except.error "No se encontraron enlaces navegables en el JSON de entrada. Usa --base-url si tus enlaces son relativos." :
                Except String (List String))
            else Except.ok (cleanLinks xs base)) with
          | Except.error e => (Except.error e : Except String (List α))
          | Except.ok ls => scrape_links_to_memory render (ls.map JVal.str) base) =
        Except.error "No se encontraron enlaces navegables en el JSON de entrada. Usa --base-url si tus enlaces son relativos."
      rw [hc]
      rfl
  | .obj f =>
    match hjl : jLookup f "links" with
    | none =>
      refine ⟨"No se encontraron enlaces navegables en el JSON de entrada. Usa --base-url si tus enlaces son relativos.", ?_⟩
      show (match (match (match jLookup f "links" with
              | some (JVal.arr xs) => (Except.ok xs : Except String (List JVal))
              | some _ => Except.error "El JSON debe contener una lista o una clave 'links' con la lista de URLs"
              | none => Except.ok []) with
            | Except.error e => (Except.error e : Except String (List String))
            | Except.ok ls =>
              if (cleanLinks ls base).isEmpty then
                Except.error "No se encontraron enlaces navegables en el JSON de entrada. Usa --base-url si tus enlaces son relativos."
              else Except.ok (cleanLinks ls base)) with
          | Except.error e => (Except.error e : Except String (List α))
          | Except.ok ls => scrape_links_to_memory render (ls.map JVal.str) base) =
        Except.error "No se encontraron enlaces navegables en el JSON de entrada. Usa --base-url si tus enlaces son relativos."
      rw [hjl]
      rfl
    | some (.arr xs) =>
      rcases h with h | h
      · rw [show payloadLinksList (JVal.obj f) = some xs by
          simp [payloadLinksList, hjl]] at h
        exact absurd h (by simp)
      · have hc := h xs (by simp [payloadLinksList, hjl])
        refine ⟨"No se encontraron enlaces navegables en el JSON de entrada. Usa --base-url si tus enlaces son relativos.", ?_⟩
        show (match (match (match jLookup f "links" with
                | some (JVal.arr xs) => (Except.ok xs : Except String (List JVal))
                | some _ => Except.error "El JSON debe contener una lista o una clave 'links' con la lista de URLs"
                | none => Except.ok []) with
              | Except.error e => (Except.error e : Except String (List String))
              | Except.ok ls =>
                if (cleanLinks ls base).isEmpty then
                  Except.error "No se encontraron enlaces navegables en el JSON de entrada. Usa --base-url si tus enlaces son relativos."
                else Except.ok (cleanLinks ls base)) with
            | Except.error e => (Except.error e : Except String (List α))
            | Except.ok ls => scrape_links_to_memory render (ls.map JVal.str) base) =
          Except.error "No se encontraron enlaces navegables en el JSON de entrada. Usa --base-url si tus enlaces son relativos."
        rw [hjl]
        show (match (if (cleanLinks xs base).isEmpty then
                (Except.error "No se encontraron enlaces navegables en el JSON de entrada. Usa --base-url si tus enlaces son relativos." :
                  Except String (List String))
              else Except.ok (cleanLinks xs base)) with
            | Except.error e => (Except.error e : Except String (List α))
            | Except.ok ls => scrape_links_to_memory render (ls.map JVal.str) base) =
          Except.error "No se encontraron enlaces navegables en el JSON de entrada. Usa --base-url si tus enlaces son relativos."
        rw [hc]
        rfl
    | some .null | some (.bool _) | some (.num _) | some (.str _)
    | some (.obj _) =>
      refine ⟨"El JSON debe contener una lista o una clave 'links' con la lista de URLs", ?_⟩
      show (match (match (match jLookup f "links" with
              | some (JVal.arr xs) => (Except.ok xs : Except String (List JVal))
              | some _ => Except.error "El JSON debe contener una lista o una clave 'links' con la lista de URLs"
              | none => Except.ok []) with
            | Except.error e => (Except.error e : Except String (List String))
            | Except.ok ls =>
              if (cleanLinks ls base).isEmpty then
                Except.error "No se encontraron enlaces navegables en el JSON de entrada. Usa --base-url si tus enlaces son relativos."
              else Except.ok (cleanLinks ls base)) with
          | Except.error e => (Except.error e : Except String (List α))
          | Except.ok ls => scrape_links_to_memory render (ls.map JVal.str) base) =
        Except.error "El JSON debe contener una lista o una clave 'links' con la lista de URLs"
      rw [hjl]
  | .null =>
    exact ⟨"No se encontraron enlaces navegables en el JSON de entrada. Usa --base-url si tus enlaces son relativos.", rfl⟩
  | .bool b =>
    exact ⟨"No se encontraron enlaces navegables en el JSON de entrada. Usa --base-url si tus enlaces son relativos.", rfl⟩
  | .num n =>
    exact ⟨"No se encontraron enlaces navegables en el JSON de entrada. Usa --base-url si tus enlaces son relativos.", rfl⟩
  | .str s =>
    exact ⟨"No se encontraron enlaces navegables en el JSON de entrada. Usa --base-url si tus enlaces son relativos.", rfl⟩

/-- Witness for C8: an object payload whose `links` field is a string fails
for an arbitrary renderer. -/
theorem C8_witness :
    ∃ e, scrape_links_to_json (fun _ => (0 : Nat))
      (JVal.obj [("links", JVal.str "x")]) none = Except.error e :=
  C8_invalid_input (JVal.obj [("links", JVal.str "x")]) none (Or.inl rfl)
    (fun _ => (0 : Nat))

/-- A list that begins with a given non-empty separator starts with it. -/
theorem startsWithL_append (p : List Char) : ∀ rest, startsWithL p (p ++ rest) = true := by
  induction p with
  | nil => intro rest; rfl
  | cons a as ih =>
    intro rest
    show (a == a && startsWithL as (as ++ rest)) = true
    simp [ih]

/-- Lemma: `findSub` on a string that begins with the separator. -/
theorem findSub_append_self (sep rest : List Char) (hne : sep ≠ []) :
    findSub sep (sep ++ rest) = some ([], rest) := by
  match sep with
  | [] => exact absurd rfl hne
  | a :: as =>
    have hsw : startsWithL (a :: as) (a :: (as ++ rest)) = true :=
      startsWithL_append (a :: as) rest
    show (if startsWithL (a :: as) (a :: (as ++ rest)) = true then
        some (([] : List Char), (a :: (as ++ rest)).drop (a :: as).length)
      else
        match findSub (a :: as) (as ++ rest) with
        | some (b, aft) => some (a :: b, aft)
        | none => none) = some ([], rest)
    rw [if_pos hsw]
    have hdrop : (a :: (as ++ rest)).drop (a :: as).length = rest := by
      have h0 := List.drop_left (a :: as) rest
      simp only [List.cons_append] at h0
      exact h0
    rw [hdrop]

/-- One step of the fuelled splitter when the separator does not occur. -/
theorem pySplitSepF_none (sep s : List Char) (fuel : Nat) (h1 : 1 ≤ fuel)
    (h2 : findSub sep s = none) : pySplitSepF sep fuel s = [s] := by
  match fuel with
  | 0 => omega
  | fuel + 1 =>
    show (match findSub sep s with
          | none => [s]
          | some (b, a) => b :: pySplitSepF sep fuel a) = [s]
    rw [h2]

/-- Python `split` on a string of the form `marker ++ suffix` where the
marker does not occur in the suffix: exactly the empty field and the
suffix. -/
theorem pySplitSep_marker (suf : String)
    (h : hasSub "language-".data suf.data = false) :
    pySplitSep "language-" ("language-" ++ suf) = ["", suf] := by
  have hdata : ("language-" ++ suf).data = "language-".data ++ suf.data := by
    cases suf
    rfl
  have hnone : findSub "language-".data suf.data = none := by
    unfold hasSub at h
    exact Option.not_isSome_iff_eq_none.mp (by simp [h])
  unfold pySplitSep
  rw [hdata]
  have hlen : ("language-".data ++ suf.data).length + 1 =
      (suf.data.length + 9) + 1 := by
    simp [List.length_append]
  rw [hlen]
  show ((match findSub "language-".data ("language-".data ++ suf.data) with
        | none => ["language-".data ++ suf.data]
        | some (b, a) => b :: pySplitSepF "language-".data (suf.data.length + 9) a).map
      String.mk) = ["", suf]
  rw [findSub_append_self "language-".data suf.data (by decide)]
  show ([] :: pySplitSepF "language-".data (suf.data.length + 9) suf.data).map
      String.mk = ["", suf]
  rw [pySplitSepF_none "language-".data suf.data (suf.data.length + 9) (by omega) hnone]
  show ["", String.mk suf.data] = ["", suf]
  cases suf
  rfl

/-- Claim C4 (corrected, counterexample): the claim says the emitted language
is the text following the `language-` marker of the first marked class, but
the code computes `c.split("language-")[1]`, which truncates at the next
occurrence of the marker: a code node with class `language-xlanguage-y`
yields `"x"`, not `"xlanguage-y"`. -/
theorem C4_counterexample :
    (extract_examples (mkDoc [pE "pre"
        [Node.elem "code" ["language-xlanguage-y"] [] [tx "x"]]])).map
      (fun e => e.language) = ["x"] ∧
    specLanguageClaimed ["language-xlanguage-y"] = "xlanguage-y" ∧
    ("x" : String) ≠ "xlanguage-y" :=
  ⟨by decide, by decide, by decide⟩

/-- Claim C4 (amended): the emitted language is the segment of the first
`language-`-marked class lying between the marker and its next occurrence
(the second field of splitting the class on the marker): with no marked
class it is `"text"`; when the remainder after the marker has no further
marker occurrence it is exactly that remainder (so `language-python` yields
`python`); and a repeated marker truncates (`language-xlanguage-y` yields
`x`). -/
theorem C4_language_amended :
    (∀ classes : List String,
      classes.find? (fun c => pyStartsWith "language-" c) = none →
      language_from_code classes = "text") ∧
    (∀ (classes : List String) (c suf : String),
      classes.find? (fun c => pyStartsWith "language-" c) = some c →
      c = "language-" ++ suf →
      hasSub "language-".data suf.data = false →
      language_from_code classes = suf) ∧
    language_from_code ["language-xlanguage-y"] = "x" := by
  refine ⟨?_, ?_, by decide⟩
  · intro classes h
    unfold language_from_code
    rw [h]
  · intro classes c suf hfind hc hsub
    unfold language_from_code
    rw [hfind]
    show (pySplitSep "language-" c).getD 1 "" = suf
    rw [hc, pySplitSep_marker suf hsub]
    rfl

/-- Witness for C4 at a concrete class list with an unrepeated marker. -/
theorem C4_witness : language_from_code ["x", "language-python"] = "python" :=
  C4_language_amended.2.1 ["x", "language-python"] "language-python" "python"
    (by decide) (by decide) (by decide)

/-- Lemma: `removeCtlChars` keeps a leading slash. -/
theorem removeCtlChars_slash (t : List Char) :
    removeCtlChars ('/' :: t) = '/' :: removeCtlChars t := by
  have hc : (!('/' == '\t' || '/' == '\r' || '/' == '\n')) = true := by decide
  simp [removeCtlChars, List.filter_cons, hc]

/-- Lemma: `splitFirstChar ':'` steps over a leading slash. -/
theorem splitFirstChar_slash (t : List Char) :
    splitFirstChar ':' ('/' :: t) =
      (splitFirstChar ':' t).map (fun p => ('/' :: p.1, p.2)) := by
  show (if '/' == ':' then some (([] : List Char), t)
        else (splitFirstChar ':' t).map (fun p => ('/' :: p.1, p.2))) = _
  rw [if_neg (by decide : ¬ (('/' == ':') = true))]

/-- A URL whose characters begin with `//` has no scheme. -/
theorem urlsplit_scheme_protorel (t : List Char) :
    (pyUrlsplit "" (String.mk ('/' :: '/' :: t))).scheme = "" := by
  have hdata : (String.mk ('/' :: '/' :: t)).data = '/' :: '/' :: t := rfl
  simp only [pyUrlsplit, hdata, removeCtlChars_slash, splitFirstChar_slash]
  cases hX : splitFirstChar ':' (removeCtlChars t) with
  | none =>
    simp [hX]
    decide
  | some p =>
    simp [hX, show ('/' : Char).isAlpha = false from by decide]
    decide

/-- Lemma: `urlparse` reports the same scheme as `urlsplit`. -/
theorem urlparse_scheme (ds u : String) :
    (pyUrlparse ds u).scheme = (pyUrlsplit ds u).scheme := by
  show (if (usesParams.contains (pyUrlsplit ds u).scheme &&
        (pyUrlsplit ds u).path.data.contains ';') = true then
      ({ scheme := (pyUrlsplit ds u).scheme, netloc := (pyUrlsplit ds u).netloc,
         path := String.mk (splitparams (pyUrlsplit ds u).path.data).1,
         params := String.mk (splitparams (pyUrlsplit ds u).path.data).2,
         query := (pyUrlsplit ds u).query,
         fragment := (pyUrlsplit ds u).fragment } : ParseUrl)
    else
      { scheme := (pyUrlsplit ds u).scheme, netloc := (pyUrlsplit ds u).netloc,
        path := (pyUrlsplit ds u).path, params := "",
        query := (pyUrlsplit ds u).query,
        fragment := (pyUrlsplit ds u).fragment }).scheme =
    (pyUrlsplit ds u).scheme
  split <;> rfl

/-- A string starting with `//` decomposes as `'/' :: '/' :: t`. -/
theorem startsWith_slashslash {s : String} (h : pyStartsWith "//" s = true) :
    ∃ t, s.data = '/' :: '/' :: t := by
  unfold pyStartsWith at h
  match hs : s.data with
  | [] => rw [hs] at h; exact absurd h (by decide)
  | [c] =>
    rw [hs] at h
    simp [startsWithL, show ("//".data : List Char) = ['/', '/'] from rfl] at h
  | c :: d :: r =>
    rw [hs] at h
    simp [startsWithL, show ("//".data : List Char) = ['/', '/'] from rfl] at h
    exact ⟨r, by rw [← h.1, ← h.2]⟩

/-- Lemma: `_normalize_link` on a trimmed protocol-relative string href: the result
is the href prefixed with `https:`, for every base. -/
theorem normalize_protorel (s : String) (base : Option String)
    (h1 : pyStartsWith "//" s = true) (h2 : pyStrip s = s) :
    normalize_link (JVal.str s) base = some ("https:" ++ s) := by
  obtain ⟨t, ht⟩ := startsWith_slashslash h1
  have hmk : String.mk ('/' :: '/' :: t) = s := by
    cases s
    simp at ht
    rw [ht]
  have hne : s ≠ "" := by
    intro he
    rw [he] at ht
    have hcon : ([] : List Char) = '/' :: '/' :: t := ht
    exact List.noConfusion hcon
  have hscheme : (pyUrlparse "" s).scheme = "" := by
    rw [urlparse_scheme, ← hmk]
    exact urlsplit_scheme_protorel t
  unfold normalize_link
  simp only [pyStr, h2]
  rw [if_neg hne]
  rw [if_neg (show ¬ (pyUrlparse "" s).scheme ≠ "" from by simp [hscheme])]
  rw [if_pos h1]

/-- Lemma: `_normalize_link` on a trimmed href that already carries a URL scheme:
returned unchanged, for every base. -/
theorem normalize_absolute (s : String) (base : Option String)
    (h1 : pyStrip s = s) (h2 : (pyUrlparse "" s).scheme ≠ "") :
    normalize_link (JVal.str s) base = some s := by
  have hne : s ≠ "" := by
    intro he
    rw [he] at h2
    exact h2 (by decide)
  unfold normalize_link
  simp only [pyStr, h1]
  rw [if_neg hne]
  rw [if_pos h2]

/-- Claim C6 (corrected, counterexample): the claim says every protocol-relative
href resolves to `https://host/path` for every base URL, but the page-wide
extractor resolves `//host/path` with `urljoin`, which keeps the *base's*
scheme: with base `http://x.com/a` the href `//y.com/p` resolves to
`http://y.com/p`, not `https://y.com/p`. -/
theorem C6_counterexample :
    absolute_links cdocC6 "http://x.com/a" = ["http://y.com/p"] ∧
    ("http://y.com/p" : String) ≠ "https://y.com/p" :=
  ⟨by decide, by decide⟩

/-- Claim C6 (amended): the batch normalizer (`_normalize_link`) resolves a
trimmed protocol-relative href by prefixing `https:` for every base, and
leaves a trimmed href that already carries a URL scheme unchanged; the
page-wide extractor instead resolves `//host/path` with the base URL's
scheme — `https://host/path` when the base's scheme is `https`, the base's
scheme otherwise. -/
theorem C6_protocol_relative_amended :
    (∀ (s : String) (base : Option String), pyStartsWith "//" s = true →
      pyStrip s = s → normalize_link (JVal.str s) base = some ("https:" ++ s)) ∧
    (∀ (s : String) (base : Option String), pyStrip s = s →
      (pyUrlparse "" s).scheme ≠ "" → normalize_link (JVal.str s) base = some s) ∧
    pyUrljoin "https://x.com/a" "//y.com/p" = "https://y.com/p" ∧
    pyUrljoin "http://x.com/a" "//y.com/p" = "http://y.com/p" :=
  ⟨normalize_protorel, normalize_absolute, by decide, by decide⟩

/-- Witness for C6 at concrete hrefs. -/
theorem C6_witness :
    normalize_link (JVal.str "//y.com/p") none = some "https://y.com/p" ∧
    normalize_link (JVal.str "http://q.org/z") (some "https://x.com") =
      some "http://q.org/z" := by
  constructor
  · exact (C6_protocol_relative_amended.1 "//y.com/p" none (by decide)
      (by decide)).trans (by decide)
  · exact C6_protocol_relative_amended.2.1 "http://q.org/z" (some "https://x.com")
      (by decide) (by decide)

/-- Elements produced by first-seen de-duplication avoid the seen set, and
the result has no duplicates. -/
theorem dedupKeepFirstAux_nodup {α : Type} [BEq α] [LawfulBEq α] :
    ∀ (l : List α) (seen : List α),
      (∀ x, x ∈ dedupKeepFirstAux l seen → seen.contains x = false) ∧
      (dedupKeepFirstAux l seen).Nodup := by
  intro l
  induction l with
  | nil =>
    intro seen
    exact ⟨fun x hx => absurd hx (List.not_mem_nil x), List.nodup_nil⟩
  | cons a r ih =>
    intro seen
    by_cases hc : seen.contains a = true
    · show (∀ x, x ∈ (if seen.contains a then dedupKeepFirstAux r seen
          else a :: dedupKeepFirstAux r (a :: seen)) → seen.contains x = false) ∧
        (if seen.contains a then dedupKeepFirstAux r seen
          else a :: dedupKeepFirstAux r (a :: seen)).Nodup
      rw [if_pos hc]
      exact ih seen
    · have hcf : seen.contains a = false := by
        cases h : seen.contains a
        · rfl
        · exact absurd h hc
      show (∀ x, x ∈ (if seen.contains a then dedupKeepFirstAux r seen
          else a :: dedupKeepFirstAux r (a :: seen)) → seen.contains x = false) ∧
        (if seen.contains a then dedupKeepFirstAux r seen
          else a :: dedupKeepFirstAux r (a :: seen)).Nodup
      rw [if_neg hc]
      constructor
      · intro x hx
        rcases List.mem_cons.mp hx with hx | hx
        · rw [hx]; exact hcf
        · have := (ih (a :: seen)).1 x hx
          have hcons : (a :: seen).contains x = (x == a || seen.contains x) := rfl
          rw [hcons] at this
          exact (Bool.or_eq_false_iff.mp this).2
      · refine List.nodup_cons.mpr ⟨?_, (ih (a :: seen)).2⟩
        intro hmem
        have := (ih (a :: seen)).1 a hmem
        have hcons : (a :: seen).contains a = (a == a || seen.contains a) := rfl
        rw [hcons] at this
        simp at this

/-- Lemma: the loop of `_absolute_links` is the claimed filter-resolve-strip pipeline
followed by first-seen de-duplication. -/
theorem absLinksGo_eq (base : String) : ∀ (hrefs : List String) (seen : List String),
    absLinksGo base hrefs seen =
      dedupKeepFirstAux (hrefs.filterMap (fun h =>
        if skipHref h then none
        else some (stripFragment (pyUrljoin base h)))) seen := by
  intro hrefs
  induction hrefs with
  | nil => intro seen; rfl
  | cons h rest ih =>
    intro seen
    by_cases hs : skipHref h = true
    · show (if skipHref h then absLinksGo base rest seen else _) = _
      rw [if_pos hs]
      simp only [List.filterMap_cons, if_pos hs]
      exact ih seen
    · show (if skipHref h then absLinksGo base rest seen
          else
            if seen.contains (stripFragment (pyUrljoin base h)) then
              absLinksGo base rest seen
            else
              stripFragment (pyUrljoin base h) ::
                absLinksGo base rest (stripFragment (pyUrljoin base h) :: seen)) = _
      rw [if_neg hs]
      simp only [List.filterMap_cons, if_neg hs]
      show _ = (if seen.contains (stripFragment (pyUrljoin base h)) then
          dedupKeepFirstAux (rest.filterMap _) seen
        else stripFragment (pyUrljoin base h) ::
          dedupKeepFirstAux (rest.filterMap _) (stripFragment (pyUrljoin base h) :: seen))
      by_cases hc : seen.contains (stripFragment (pyUrljoin base h)) = true
      · rw [if_pos hc, if_pos hc]
        exact ih seen
      · rw [if_neg hc, if_neg hc, ih]

/-- Claim C5 (corrected, counterexample): the claim's resolution example is
wrong — against base `https://x.com/docs/a` the href `../b` resolves (per
RFC 3986 merging, as `urljoin` implements) to `https://x.com/b`, not to
`https://x.com/docs/b`, and that is what the extractor emits. -/
theorem C5_counterexample :
    pyUrljoin "https://x.com/docs/a" "../b" = "https://x.com/b" ∧
    absolute_links cdocC5 "https://x.com/docs/a" = ["https://x.com/b"] ∧
    ("https://x.com/b" : String) ≠ "https://x.com/docs/b" :=
  ⟨by decide, by decide, by decide⟩

/-- Claim C5 (amended): the page-wide link extractor visits hrefs in document
order, skips empty/fragment-only/`mailto:`/`tel:` hrefs, resolves the rest
against the base URL, strips the fragment after resolution, and
de-duplicates by resolved URL keeping first-seen order (so the output has no
duplicates and two hrefs differing only by fragment collapse); `../b`
against `https://x.com/docs/a` resolves to `https://x.com/b`, and
`https://y.com/p#frag` resolves to `https://y.com/p`. -/
theorem C5_page_links_amended :
    (∀ (doc : Node) (base : String),
      absolute_links doc base = specPageLinks doc base) ∧
    (∀ (doc : Node) (base : String), (absolute_links doc base).Nodup) ∧
    pyUrljoin "https://x.com/docs/a" "../b" = "https://x.com/b" ∧
    stripFragment (pyUrljoin "https://x.com/docs/a" "https://y.com/p#frag") =
      "https://y.com/p" := by
  have hmain : ∀ (doc : Node) (base : String),
      absolute_links doc base = specPageLinks doc base := by
    intro doc base
    unfold absolute_links specPageLinks dedupKeepFirst
    exact absLinksGo_eq base (anchorHrefs doc) []
  refine ⟨hmain, ?_, by decide, by decide⟩
  intro doc base
  rw [hmain doc base]
  unfold specPageLinks dedupKeepFirst
  exact (dedupKeepFirstAux_nodup _ []).2

/-- Filtering before a `filterMap` is a `filterMap` with a guarded
function. -/
theorem filter_filterMap {α β : Type} (p : α → Bool) (f : α → Option β) :
    ∀ l : List α, (l.filter p).filterMap f =
      l.filterMap (fun x => if p x then f x else none) := by
  intro l
  induction l with
  | nil => rfl
  | cons a r ih =>
    by_cases hp : p a = true
    · cases hf : f a <;>
        simp [List.filter_cons, List.filterMap_cons, hp, hf, ih]
    · simp [List.filter_cons, List.filterMap_cons, hp, ih]

/-- The sidebar anchor loop is the claimed trim-filter pipeline followed by
first-seen de-duplication on the (href, title) pair. -/
theorem sidebarGo_eq : ∀ (l : List Node) (seen : List (String × String)),
    sidebarGo l seen =
      (dedupKeepFirstAux (l.filterMap (fun n =>
        if pyStrip ((getAttr "href" n).getD "") ≠ "" then
          some (pyStrip ((getAttr "href" n).getD ""), get_text "" true n)
        else none)) seen).map (fun p => SidebarLink.mk p.2 p.1) := by
  intro l
  induction l with
  | nil => intro seen; rfl
  | cons a rest ih =>
    intro seen
    by_cases hh : pyStrip ((getAttr "href" a).getD "") = ""
    · show (if pyStrip ((getAttr "href" a).getD "") = "" then sidebarGo rest seen
          else if seen.contains
              (pyStrip ((getAttr "href" a).getD ""), get_text "" true a) then
            sidebarGo rest seen
          else
            SidebarLink.mk (get_text "" true a)
                (pyStrip ((getAttr "href" a).getD "")) ::
              sidebarGo rest
                ((pyStrip ((getAttr "href" a).getD ""), get_text "" true a) :: seen)) = _
      rw [if_pos hh]
      simp only [List.filterMap_cons,
        if_neg (show ¬ pyStrip ((getAttr "href" a).getD "") ≠ "" from by simp [hh])]
      exact ih seen
    · show (if pyStrip ((getAttr "href" a).getD "") = "" then sidebarGo rest seen
          else if seen.contains
              (pyStrip ((getAttr "href" a).getD ""), get_text "" true a) then
            sidebarGo rest seen
          else
            SidebarLink.mk (get_text "" true a)
                (pyStrip ((getAttr "href" a).getD "")) ::
              sidebarGo rest
                ((pyStrip ((getAttr "href" a).getD ""), get_text "" true a) :: seen)) = _
      rw [if_neg hh]
      simp only [List.filterMap_cons, if_pos hh]
      show _ = (if seen.contains
            (pyStrip ((getAttr "href" a).getD ""), get_text "" true a) then
          dedupKeepFirstAux (rest.filterMap _) seen
        else (pyStrip ((getAttr "href" a).getD ""), get_text "" true a) ::
          dedupKeepFirstAux (rest.filterMap _)
            ((pyStrip ((getAttr "href" a).getD ""), get_text "" true a) :: seen)).map
        (fun p => SidebarLink.mk p.2 p.1)
      by_cases hc : seen.contains
          (pyStrip ((getAttr "href" a).getD ""), get_text "" true a) = true
      · rw [if_pos hc, if_pos hc]
        exact ih seen
      · rw [if_neg hc, if_neg hc, List.map_cons, ih]

/-- Claim C7 (corrected, counterexample): the claim says hrefs are returned
exactly as found, but `extract_links` strips surrounding whitespace: an
anchor with href `" docs/guide "` is returned with href `"docs/guide"`. -/
theorem C7_counterexample :
    extract_links cdocC7 = [SidebarLink.mk "G" "docs/guide"] ∧
    specSidebarClaimed cdocC7 = [SidebarLink.mk "G" " docs/guide "] ∧
    SidebarLink.mk "G" "docs/guide" ≠ SidebarLink.mk "G" " docs/guide " :=
  ⟨by decide, by decide, by decide⟩

/-- Claim C7 (amended): with no `os-padding` sidebar container the extractor
returns the empty sequence (never an error); with one, it returns the
container's anchors whose whitespace-trimmed href is non-empty, in document
order, de-duplicated by the (trimmed href, visible text) pair keeping first
occurrence; hrefs are returned whitespace-trimmed but otherwise as found,
with no base-URL resolution. -/
theorem C7_sidebar_amended (doc : Node) :
    (sidebar_container doc = none → extract_links doc = []) ∧
    extract_links doc = specSidebarAmended doc := by
  constructor
  · intro h
    unfold extract_links
    rw [h]
  · unfold extract_links specSidebarAmended
    cases hsc : sidebar_container doc with
    | none => rfl
    | some c =>
      show sidebarGo ((strictDesc c).filter
          (fun n => isTagName "a" n && (getAttr "href" n).isSome)) [] =
        ((dedupKeepFirst ((strictDesc c).filterMap
          (fun n =>
            if (isTagName "a" n && (getAttr "href" n).isSome) = true then
              if pyStrip ((getAttr "href" n).getD "") ≠ "" then
                some (pyStrip ((getAttr "href" n).getD ""), get_text "" true n)
              else none
            else none))).map (fun p => SidebarLink.mk p.2 p.1))
      rw [sidebarGo_eq, filter_filterMap]
      rfl

/-- Witness for C7: a document with no sidebar container yields the empty
sequence. -/
theorem C7_witness : extract_links (mkDoc [pE "p" [tx "n"]]) = [] :=
  (C7_sidebar_amended (mkDoc [pE "p" [tx "n"]])).1 rfl

/-- The per-level scan is the claimed first-match search: the first sibling
that is a non-empty `h2`/`h3` (found) or contents-less (abort). -/
theorem scanLeftHd_spec : ∀ left : List Node,
    scanLeftHd left =
      (specScanFind left).map (fun n => if isH23ne n then some n else none) := by
  intro left
  induction left with
  | nil => rfl
  | cons x rest ih =>
    match x with
    | .text s =>
      show scanLeftHd rest = _
      rw [ih]
      unfold specScanFind
      have hfalse : (fun n => isH23ne n || isEmptyTag n) (Node.text s) = false := rfl
      rw [List.find?_cons_of_neg _ (by simp [hfalse])]
    | .elem t c a kids =>
      have hcond : ((t == "h2" || t == "h3") && !kids.isEmpty) =
          isH23ne (.elem t c a kids) := rfl
      have hempty : kids.isEmpty = isEmptyTag (.elem t c a kids) := rfl
      show (if (t == "h2" || t == "h3") && !kids.isEmpty then
          some (some (Node.elem t c a kids))
        else if kids.isEmpty then some none
        else scanLeftHd rest) = _
      rw [hcond, hempty]
      by_cases h1 : isH23ne (.elem t c a kids) = true
      · rw [if_pos h1]
        unfold specScanFind
        rw [List.find?_cons_of_pos _ (by simp [h1])]
        simp [h1]
      · rw [if_neg h1]
        by_cases h2 : isEmptyTag (.elem t c a kids) = true
        · rw [if_pos h2]
          unfold specScanFind
          rw [List.find?_cons_of_pos _ (by simp [h2])]
          simp [h1]
        · rw [if_neg h2]
          rw [ih]
          unfold specScanFind
          rw [List.find?_cons_of_neg _ (by simp [h1, h2])]

/-- The heading-only multi-level search is the claimed per-level first-match
walk. -/
theorem searchLevelsHd_spec : ∀ (cs : List Crumb) (left : List Node),
    searchLevelsHd left cs = specLevels left cs := by
  intro cs
  induction cs with
  | nil =>
    intro left
    show (match scanLeftHd left with
          | some (some h) => some h
          | _ => none) = _
    rw [scanLeftHd_spec]
    unfold specLevels
    cases hf : specScanFind left with
    | none => rfl
    | some n =>
      by_cases h1 : isH23ne n = true
      · simp [h1]
      · simp [h1]
  | cons c cs ih =>
    intro left
    show (match scanLeftHd left with
          | some (some h) => some h
          | some none => none
          | none => searchLevelsHd c.left cs) = _
    rw [scanLeftHd_spec]
    unfold specLevels
    cases hf : specScanFind left with
    | none =>
      show searchLevelsHd c.left cs = _
      exact ih c.left
    | some n =>
      by_cases h1 : isH23ne n = true
      · simp [h1]
      · simp [h1]

/-- The source's heading search computes the amended claimed walk. -/
theorem closest_spec (l : Loc) :
    (closest_section_heading l).map Prod.fst = specSearch l := by
  unfold closest_section_heading specSearch
  by_cases he : isEmptyTag l.node = true
  · rw [if_pos he, if_pos he]
    rfl
  · rw [if_neg he, if_neg he]
    cases l.crumbs with
    | nil => rfl
    | cons c cs =>
      rw [searchLevels_hd, searchLevelsHd_spec]

/-- Per-block title equation: the emitted title is the amended claimed
title. -/
theorem exampleTitle_spec (doc : Node) (l : Loc) :
    (exampleFor doc l).title = specTitleAmended doc l := by
  show exampleTitle (pageH1Text doc) (closest_section_heading (blockOf l)) =
    specTitleAmended doc l
  unfold specTitleAmended
  rw [← closest_spec (blockOf l)]
  cases hc : closest_section_heading (blockOf l) with
  | none =>
    show exampleTitle (pageH1Text doc) none =
      (match (strictDesc doc).find? (isTagName "h1") with
       | some h =>
         if get_text " " true h ≠ "" then get_text " " true h else "Example"
       | none => "Example")
    unfold exampleTitle pageH1Text
    cases hh : (strictDesc doc).find? (isTagName "h1") with
    | none => rfl
    | some h =>
      show (if get_text " " true h = "" then "Example" else get_text " " true h) =
        (if get_text " " true h ≠ "" then get_text " " true h else "Example")
      by_cases he : get_text " " true h = ""
      · simp [he]
      · simp [he]
  | some p =>
    cases p with
    | mk h b => rfl

/-- Claim C1 (corrected, counterexample): the claim says non-heading siblings
are skipped and never act as a boundary, but a contents-less sibling is
falsy in the source's `while curr` loop and aborts the search: with
`<h2>A</h2><hr/><pre><code>x</code></pre>` the emitted title is the fallback
`"Example"`, while the claimed walk finds the `h2` and titles the example
`"A"`. -/
theorem C1_counterexample :
    (extract_examples cdocC1).map (fun e => e.title) = ["Example"] ∧
    (selectPreCode cdocC1).map (specTitleClaimed cdocC1) = ["A"] ∧
    (["Example"] : List String) ≠ ["A"] :=
  ⟨by decide, by decide, by decide⟩

/-- Claim C1 (amended): each emitted example's title is determined by the
backward sibling walk with parent ascent, where the first sibling that is a
*non-empty* `h2`/`h3` is the owning heading, a sibling element with no
contents aborts the search (it is falsy in the loop condition), any other
sibling is skipped, and exhausting the root yields no heading; the title is
the found heading's whitespace-normalized text, otherwise the first `h1`'s
text when that text is non-empty, otherwise the literal `"Example"`. -/
theorem C1_title (doc : Node) :
    ((extract_examples doc).map (fun e => e.title) =
      ((selectPreCode doc).filter codeKept).map (specTitleAmended doc)) ∧
    (∀ l : Loc, (closest_section_heading l).map Prod.fst = specSearch l) := by
  constructor
  · rw [extract_examples_eq, List.map_map]
    have hfun : ((fun e : CodeExample => e.title) ∘ exampleFor doc) =
        specTitleAmended doc :=
      funext (fun l => exampleTitle_spec doc l)
    rw [hfun]
  · exact closest_spec

/-- The source's duplicate filter keeps exactly the non-empty blocks that
survive run-collapsing (continuation case). -/
theorem keepNonDupAux_eq : ∀ (rest : List String) (prev : String),
    keepNonDupAux prev rest =
      (collapseRunsAux prev rest).filter (fun t => t ≠ "") := by
  intro rest
  induction rest with
  | nil => intro prev; rfl
  | cons t r ih =>
    intro prev
    show (if t ≠ "" ∧ t ≠ prev then [t] else []) ++ keepNonDupAux t r =
      ((if t = prev then [] else [t]) ++ collapseRunsAux t r).filter
        (fun t => t ≠ "")
    rw [List.filter_append, ih t]
    by_cases hp : t = prev
    · rw [if_neg (by simp [hp]), if_pos hp]
      simp
    · by_cases he : t = ""
      · rw [if_neg (by simp [he]), if_neg hp]
        simp [he]
      · rw [if_pos ⟨he, hp⟩, if_neg hp]
        simp [he]

/-- The source's duplicate filter is run-collapsing followed by dropping
empty blocks. -/
theorem keepNonDup_eq : ∀ texts : List String,
    keepNonDup texts = (collapseRuns texts).filter (fun t => t ≠ "") := by
  intro texts
  cases texts with
  | nil => rfl
  | cons t rest =>
    show (if t ≠ "" then [t] else []) ++ keepNonDupAux t rest =
      (t :: collapseRunsAux t rest).filter (fun t => t ≠ "")
    rw [List.filter_cons, keepNonDupAux_eq]
    by_cases he : t = ""
    · rw [if_neg (by simp [he]), if_neg (by simp [he])]
      simp
    · rw [if_pos he, if_pos (by simp [he])]
      simp

/-- The joined description is the claimed assembly. -/
theorem dedupJoin_eq (texts : List String) : dedupJoin texts = specJoin texts := by
  unfold dedupJoin specJoin
  rw [keepNonDup_eq]

/-- The wrapper descent collects texts up to the first `p`/`ul`/`ol` whose
first `code` descendant is a non-empty tag. -/
theorem takeUntilCode_eq : ∀ subs : List Node,
    takeUntilCode subs =
      (subs.takeWhile (fun s => !findCodeTruthy s)).map
        (fun s => clean_text (get_text " " true s)) := by
  intro subs
  induction subs with
  | nil => rfl
  | cons sub rest ih =>
    by_cases hcd : findCodeTruthy sub = true
    · show (if findCodeTruthy sub then [] else _) = _
      rw [if_pos hcd]
      simp [List.takeWhile_cons, hcd]
    · show (if findCodeTruthy sub then []
          else clean_text (get_text " " true sub) :: takeUntilCode rest) = _
      rw [if_neg hcd]
      have hb : findCodeTruthy sub = false := by
        cases hx : findCodeTruthy sub
        · rfl
        · exact absurd hx hcd
      simp [List.takeWhile_cons, hb, ih]

/-- The sibling walk of the heading branch collects, from the siblings up to
the first one structurally containing the code block, the `p`/`ul`/`ol`
texts and the wrapper-descent texts. -/
theorem collectSibs_eq (block : Node) : ∀ sibs : List Node,
    collectSibs block sibs =
      (sibs.takeWhile (fun sib => !containsStrict block sib)).flatMap
        specSibTexts := by
  intro sibs
  induction sibs with
  | nil => rfl
  | cons sib rest ih =>
    match sib with
    | .text s =>
      have hc : containsStrict block (Node.text s) = false := rfl
      show collectSibs block rest = _
      simp [List.takeWhile_cons, hc, specSibTexts, ih]
    | .elem t c a kids =>
      by_cases hc : containsStrict block (Node.elem t c a kids) = true
      · show (if containsStrict block (Node.elem t c a kids) then [] else _) = _
        rw [if_pos hc]
        simp [List.takeWhile_cons, hc]
      · have hb : containsStrict block (Node.elem t c a kids) = false := by
          cases hx : containsStrict block (Node.elem t c a kids)
          · rfl
          · exact absurd hx hc
        show (if containsStrict block (Node.elem t c a kids) then []
            else
              (if t == "p" || t == "ul" || t == "ol" then
                [clean_text (get_text " " true (Node.elem t c a kids))]
              else []) ++
              (if t == "div" || t == "section" || t == "article" then
                takeUntilCode (findAllPUlOl (Node.elem t c a kids))
              else []) ++
              collectSibs block rest) = _
        rw [if_neg hc]
        simp only [List.takeWhile_cons, hb, Bool.not_false, if_true,
          List.flatMap_cons, ih, takeUntilCode_eq]
        show _ = (if t == "p" || t == "ul" || t == "ol" then
            [clean_text (get_text " " true (Node.elem t c a kids))]
          else []) ++
          (if t == "div" || t == "section" || t == "article" then
            ((findAllPUlOl (Node.elem t c a kids)).takeWhile
                (fun s => !findCodeTruthy s)).map
              (fun s => clean_text (get_text " " true s))
          else []) ++ _
        rw [List.append_assoc]

/-- The backward walk of the no-heading branch collects `p`/`ul`/`ol` texts
up to the first `h2`/`h3`/`main`/`article`. -/
theorem collectPrev_eq : ∀ prevs : List Node,
    collectPrev prevs =
      (prevs.takeWhile (fun n =>
        !(isTagName "h2" n || isTagName "h3" n || isTagName "main" n ||
          isTagName "article" n))).filterMap (fun n =>
        if isPUlOl n then some (clean_text (get_text " " true n)) else none) := by
  intro prevs
  induction prevs with
  | nil => rfl
  | cons x rest ih =>
    match x with
    | .text s => exact ih
    | .elem t c a kids =>
      show (if t == "h2" || t == "h3" || t == "main" || t == "article" then
          (if t == "p" || t == "ul" || t == "ol" then
            [clean_text (get_text " " true (Node.elem t c a kids))]
          else [])
        else
          (if t == "p" || t == "ul" || t == "ol" then
            [clean_text (get_text " " true (Node.elem t c a kids))]
          else []) ++ collectPrev rest) = _
      rw [List.takeWhile_cons]
      by_cases hstop : (t == "h2" || t == "h3" || t == "main" || t == "article") = true
      · have hpredEq : (!(isTagName "h2" (Node.elem t c a kids) ||
            isTagName "h3" (Node.elem t c a kids) ||
            isTagName "main" (Node.elem t c a kids) ||
            isTagName "article" (Node.elem t c a kids))) = false := by
          show (!(t == "h2" || t == "h3" || t == "main" || t == "article")) = false
          rw [hstop]
          decide
        have hpu : (t == "p" || t == "ul" || t == "ol") = false := by
          simp only [Bool.or_eq_true, beq_iff_eq] at hstop
          rcases hstop with ((rfl | rfl) | rfl) | rfl <;> decide
        rw [if_pos hstop, hpu, hpredEq]
        rfl
      · have hpredEq : (!(isTagName "h2" (Node.elem t c a kids) ||
            isTagName "h3" (Node.elem t c a kids) ||
            isTagName "main" (Node.elem t c a kids) ||
            isTagName "article" (Node.elem t c a kids))) = true := by
          show (!(t == "h2" || t == "h3" || t == "main" || t == "article")) = true
          cases hx : (t == "h2" || t == "h3" || t == "main" || t == "article")
          · rfl
          · exact absurd hx hstop
        rw [if_neg hstop, hpredEq]
        rw [show (if (true = true) then
            Node.elem t c a kids ::
              rest.takeWhile (fun n => !(isTagName "h2" n || isTagName "h3" n ||
                isTagName "main" n || isTagName "article" n))
          else []) = Node.elem t c a kids ::
            rest.takeWhile (fun n => !(isTagName "h2" n || isTagName "h3" n ||
              isTagName "main" n || isTagName "article" n)) from rfl]
        rw [List.filterMap_cons]
        by_cases hpu : (t == "p" || t == "ul" || t == "ol") = true
        · have hsome : (if isPUlOl (Node.elem t c a kids) then
              some (clean_text (get_text " " true (Node.elem t c a kids)))
            else none) =
              some (clean_text (get_text " " true (Node.elem t c a kids))) := by
            rw [show isPUlOl (Node.elem t c a kids) = true from hpu]
            rfl
          rw [if_pos hpu, hsome, ih]
          rfl
        · have hnone : (if isPUlOl (Node.elem t c a kids) then
              some (clean_text (get_text " " true (Node.elem t c a kids)))
            else none) = none := by
            rw [if_neg (show ¬ isPUlOl (Node.elem t c a kids) = true from hpu)]
          rw [if_neg hpu, hnone, ih]
          rfl

/-- Lemma: `_collect_description_between` computes the amended claimed
description, for every heading-search outcome and block location. -/
theorem collect_description_eq (headingRes : Option (Node × List Node)) (block : Loc) :
    collect_description_between headingRes block =
      specDescriptionAmended headingRes block := by
  unfold collect_description_between specDescriptionAmended
  cases headingRes with
  | none =>
    show dedupJoin ((collectPrev (prevElems block.node block.crumbs)).reverse) =
      specJoin ((((prevElems block.node block.crumbs).takeWhile (fun n =>
          !(isTagName "h2" n || isTagName "h3" n || isTagName "main" n ||
            isTagName "article" n))).filterMap (fun n =>
        if isPUlOl n then some (clean_text (get_text " " true n))
        else none)).reverse)
    rw [collectPrev_eq, dedupJoin_eq]
  | some p =>
    cases p with
    | mk h between =>
      show dedupJoin (collectSibs block.node between) =
        specJoin ((between.takeWhile
          (fun sib => !containsStrict block.node sib)).flatMap specSibTexts)
      rw [collectSibs_eq, dedupJoin_eq]

/-- Claim C2 (corrected, counterexample): the claim collects every `p`/`ul`/`ol`
sibling strictly between the heading and the code block, but the source
breaks the sibling walk at the first sibling that structurally contains a
copy of the block: with a duplicate of the code block wrapped in a `div`
before the prose paragraph, the second example's emitted description is
empty while the claimed collection yields `"d"`. -/
theorem C2_counterexample :
    (extract_examples cdocC2).map (fun e => e.description) = ["", ""] ∧
    (selectPreCode cdocC2).map (fun l =>
      specDescriptionClaimed (closest_section_heading (blockOf l)) (blockOf l)) =
      ["", "d"] ∧
    (["", ""] : List String) ≠ ["", "d"] :=
  ⟨by decide, by decide, by decide⟩

/-- Claim C2 (amended): each emitted description is the blank-line join (with
adjacent identical blocks collapsed and empty blocks dropped) of the
normalized `p`/`ul`/`ol` texts of the siblings between the heading and the
code block — the walk stopping at the first sibling equal to or structurally
containing a copy of the block — descending into `div`/`section`/`article`
wrappers up to the first `p`/`ul`/`ol` whose first `code` descendant is a
non-empty tag (a found but contents-less `code` is falsy in the source's
`if sub.find("code")` test and does not stop the descent); with no heading,
of the backward-collected `p`/`ul`/`ol` texts up to an `h2`/`h3` or
`main`/`article` boundary, reversed back to document order. -/
theorem C2_description (doc : Node) :
    ((extract_examples doc).map (fun e => e.description) =
      ((selectPreCode doc).filter codeKept).map (fun l =>
        specDescriptionAmended (closest_section_heading (blockOf l)) (blockOf l))) ∧
    (∀ (headingRes : Option (Node × List Node)) (block : Loc),
      collect_description_between headingRes block =
        specDescriptionAmended headingRes block) := by
  constructor
  · rw [extract_examples_eq, List.map_map]
    have hfun : ((fun e : CodeExample => e.description) ∘ exampleFor doc) =
        (fun l => specDescriptionAmended (closest_section_heading (blockOf l))
          (blockOf l)) :=
      funext (fun l => collect_description_eq _ _)
    rw [hfun]
  · exact collect_description_eq

/-- Claim C10 (corrected, counterexample): the claim says `page_title` is the
empty string only if the `<title>` element is absent, but a present,
contents-less `<title>` also yields the empty string. -/
theorem C10_counterexample :
    page_title cdocC10 = "" ∧
    ((strictDesc cdocC10).find? (isTagName "title")).isSome = true ∧
    ((strictDesc cdocC10).find? (isTagName "h1")).isSome = false :=
  ⟨by decide, by decide, by decide⟩

/-- Claim C10 (amended): on a document with no `h1`, `page_title` falls back
to the whitespace-normalized text of the document's first `<title>` element
(the empty string when the `<title>` is absent, contents-less, or has only
whitespace text), while every code block with no heading found receives the
literal title `"Example"` — the per-example fallback consults only the first
`h1`, never the `<title>`. -/
theorem C10_title_fallbacks (doc : Node)
    (h : (strictDesc doc).find? (isTagName "h1") = none) :
    page_title doc = specTitleTagText doc ∧
    (∀ l : Loc, closest_section_heading (blockOf l) = none →
      (exampleFor doc l).title = "Example") := by
  constructor
  · unfold page_title
    rw [h]
    show titleFallback doc = specTitleTagText doc
    unfold titleFallback specTitleTagText
    cases ht : (strictDesc doc).find? (isTagName "title") with
    | none => rfl
    | some tt =>
      show (if (!isEmptyTag tt) = true then clean_text (get_text " " true tt)
          else "") = clean_text (get_text " " true tt)
      by_cases he : isEmptyTag tt = true
      · rw [if_neg (by simp [he])]
        match tt, he with
        | .elem t2 c2 a2 kids2, he =>
          have hk : kids2 = [] := by
            simpa [isEmptyTag, List.isEmpty_iff] using he
          subst hk
          show ("" : String) = clean_text (get_text " " true (Node.elem t2 c2 a2 []))
          rfl
      · rw [if_pos (by simp [he])]
  · intro l hl
    show exampleTitle (pageH1Text doc) (closest_section_heading (blockOf l)) =
      "Example"
    rw [hl]
    show (if pageH1Text doc = "" then "Example" else pageH1Text doc) = "Example"
    unfold pageH1Text
    rw [h]
    rfl

/-- Witness for C10 on a concrete document with a `<title>` and a
heading-less code block. -/
theorem C10_witness :
    page_title wdocC10 = specTitleTagText wdocC10 ∧
    (exampleFor wdocC10 wlocC10).title = "Example" := by
  have h := C10_title_fallbacks wdocC10 rfl
  exact ⟨h.1, h.2 wlocC10 rfl⟩

end DocScrape
